import Mathlib

/-
Verification development for the Agentic-AI metadata-extraction scripts.

The repository has three Python files:
  * Code.py                          : a standalone Together-API demo with a
                                       startup credential check;
  * Extract_Metadata_With_LLM.py     : the hosted (Together) extraction
                                       pipeline;
  * Extract_Metadata_With_LLM_ollama.py : the local (Ollama) extraction
                                       pipeline.

This file embeds the response-parsing, retry, startup and directory-driver
logic of those scripts as executable Lean definitions and proves properties
about them.  Strings are modelled as lists of unicode scalar values
(Lean Char); the ASCII core of Python's whitespace classes is modelled,
which covers every input the theorems below exercise.
-/

namespace AgenticAI

/-- ASCII whitespace as recognised both by Python's default `str.strip` and
by the regex class `\s` (space, tab, newline, carriage return, vertical tab,
form feed).  Python additionally treats some rarer unicode code points as
whitespace; no input below contains them. -/
def isPySpace (c : Char) : Bool :=
  c == ' ' || c == '\t' || c == '\n' || c == '\r' || c == '\x0b' || c == '\x0c'

/-- The whitespace class of the JSON grammar used by Python's `json` module
(`WHITESPACE = [ \t\n\r]*`): strictly smaller than `isPySpace`. -/
def isJsonWs (c : Char) : Bool :=
  c == ' ' || c == '\t' || c == '\n' || c == '\r'

/-- Python `str.lstrip()` (ASCII core). -/
def lstripWs (l : List Char) : List Char := l.dropWhile isPySpace

/-- Python `str.rstrip()` (ASCII core). -/
def rstripWs (l : List Char) : List Char := (l.reverse.dropWhile isPySpace).reverse

/-- Python `str.strip()` (ASCII core). -/
def pyStrip (l : List Char) : List Char := rstripWs (lstripWs l)

/-- Python `str.lower()` on one character (ASCII core). -/
def pyLowerChar (c : Char) : Char :=
  if 'A' ≤ c && c ≤ 'Z' then Char.ofNat (c.toNat + 32) else c

/-- Python `str.lower()` (ASCII core). -/
def pyLower (l : List Char) : List Char := l.map pyLowerChar

/-- Python `str.endswith(suffix)`. -/
def pyEndsWith (l suf : List Char) : Bool := suf.isSuffixOf l

/-- The opening-brace and closing-brace characters. -/
def lbrace : Char := '\x7b'

/-- The closing-brace character. -/
def rbrace : Char := '\x7d'

/-- The literal part of the pattern of
`re.sub(r'```json\s*', '', response_content)`
in Extract_Metadata_With_LLM_ollama.py line 75. -/
def tickJsonLit : List Char := "```json".toList

/-- The three-backtick token of the pattern of
`re.sub(r'\s*```', '', response_content)`
in Extract_Metadata_With_LLM_ollama.py line 76. -/
def tick3Lit : List Char := "```".toList

/-- One left-to-right pass of `re.sub(r'```json\s*', '', s)`: at each
position, if the literal backtick-backtick-backtick-json token starts
there, the token and the maximal whitespace run after it are removed and
scanning resumes after the removed text; otherwise the character is kept.
`fuel` only drives termination; it is kept at least the length of the
remaining input. -/
def subJsonFenceFuel : Nat → List Char → List Char
  | 0, l => l
  | _ + 1, [] => []
  | f + 1, c :: cs =>
    if tickJsonLit.isPrefixOf (c :: cs) then
      subJsonFenceFuel f (((c :: cs).drop 7).dropWhile isPySpace)
    else
      c :: subJsonFenceFuel f cs

/-- `re.sub(r'```json\s*', '', s)` from
Extract_Metadata_With_LLM_ollama.py line 75. -/
def subJsonFence (l : List Char) : List Char := subJsonFenceFuel (l.length + 1) l

/-- One left-to-right pass of `re.sub(r'\s*```', '', s)`.  A match starting
at position i exists exactly when the maximal whitespace run starting at i
is immediately followed by three backticks (whitespace is never a backtick,
so the greedy `\s*` can only stop at the end of the run); the run and the
backticks are removed and scanning resumes after them. -/
def subCloseFenceFuel : Nat → List Char → List Char
  | 0, l => l
  | _ + 1, [] => []
  | f + 1, c :: cs =>
    let r := (c :: cs).dropWhile isPySpace
    if tick3Lit.isPrefixOf r then
      subCloseFenceFuel f (r.drop 3)
    else if isPySpace c then
      (c :: cs).takeWhile isPySpace ++ subCloseFenceFuel f r
    else
      c :: subCloseFenceFuel f cs

/-- `re.sub(r'\s*```', '', s)` from
Extract_Metadata_With_LLM_ollama.py line 76. -/
def subCloseFence (l : List Char) : List Char := subCloseFenceFuel (l.length + 1) l

/-- `re.search(r'\{.*\}', s, re.DOTALL)` from
Extract_Metadata_With_LLM_ollama.py line 86, returning `match.group(0)`:
the leftmost-then-greedy match runs from the first opening brace to the
last closing brace of the string, provided that closing brace comes after
the opening one; otherwise there is no match.  Computed by trimming
everything before the first opening brace and everything after the last
closing brace of the remainder; the result is empty exactly when no such
match exists. -/
def braceSlice (l : List Char) : Option (List Char) :=
  let d := l.dropWhile (fun c => !(c == lbrace))
  let e := (d.reverse.dropWhile (fun c => !(c == rbrace))).reverse
  if e.isEmpty then none else some e

/-- A JSON value as produced by Python's `json.loads`.  Object members keep
Python `dict` semantics (insertion order, duplicate keys resolved
last-value-wins at first-occurrence position, handled by `objInsert`).
Numeric literals are kept as their lexemes: no theorem below inspects
numeric values, so the int/float conversion performed by Python is not
modelled further. -/
inductive Json where
  | null
  | bool (b : Bool)
  | num (lex : List Char)
  | str (s : List Char)
  | arr (xs : List Json)
  | obj (kvs : List (List Char × Json))

instance : Inhabited Json := ⟨Json.null⟩

/-- Number of members of a top-level JSON object (zero for any other
value); used to tell parse results apart. -/
def topKeyCount : Json → Nat
  | Json.obj kvs => kvs.length
  | _ => 0

/-- The value stored under a key of a top-level JSON object, if any. -/
def objGet (j : Json) (k : List Char) : Option Json :=
  match j with
  | Json.obj kvs => kvs.lookup k
  | _ => none

/-- Insertion of one key into a Python `dict` modelled as an association
list: an existing key keeps its position and gets the new value, a new key
is appended. -/
def objInsert (kvs : List (List Char × Json)) (k : List Char) (v : Json) :
    List (List Char × Json) :=
  match kvs with
  | [] => [(k, v)]
  | (k0, v0) :: rest =>
    if k0 = k then (k0, v) :: rest else (k0, v0) :: objInsert rest k v

/-- Skip the JSON whitespace class, as `json.decoder`'s `WHITESPACE` regex
does between tokens. -/
def jsonSkipWs (l : List Char) : List Char := l.dropWhile isJsonWs

/-- Numeric value of one hexadecimal digit, if any. -/
def hexDigitVal (c : Char) : Option Nat :=
  if '0' ≤ c && c ≤ '9' then some (c.toNat - 48)
  else if 'a' ≤ c && c ≤ 'f' then some (c.toNat - 87)
  else if 'A' ≤ c && c ≤ 'F' then some (c.toNat - 55)
  else none

/-- Four hexadecimal digits, as in a JSON `\uXXXX` escape. -/
def hex4 : List Char → Option (Nat × List Char)
  | a :: b :: c :: d :: rest => do
    let x ← hexDigitVal a
    let y ← hexDigitVal b
    let z ← hexDigitVal c
    let w ← hexDigitVal d
    pure ((((x * 16 + y) * 16 + z) * 16 + w), rest)
  | _ => none

/-- Body of a JSON string after the opening quote, per `json.decoder`'s
strict `scanstring`: plain characters up to the closing quote, the named
backslash escapes, `\uXXXX` escapes with surrogate-pair combination, and
rejection of raw control characters below 0x20.  A lone surrogate (which
CPython would keep as a lone surrogate code unit inside a `str`) is not
representable as a Lean scalar value and is modelled as a parse failure;
no theorem below exercises that corner. -/
def scanStringBody : Nat → List Char → Option (List Char × List Char)
  | 0, _ => none
  | _ + 1, [] => none
  | f + 1, c :: cs =>
    if c == '"' then some ([], cs)
    else if c == '\\' then
      match cs with
      | [] => none
      | e :: cs2 =>
        if e == '"' || e == '\\' || e == '/' then
          (scanStringBody f cs2).map (fun p => (e :: p.1, p.2))
        else if e == 'b' then
          (scanStringBody f cs2).map (fun p => ('\x08' :: p.1, p.2))
        else if e == 'f' then
          (scanStringBody f cs2).map (fun p => ('\x0c' :: p.1, p.2))
        else if e == 'n' then
          (scanStringBody f cs2).map (fun p => ('\n' :: p.1, p.2))
        else if e == 'r' then
          (scanStringBody f cs2).map (fun p => ('\r' :: p.1, p.2))
        else if e == 't' then
          (scanStringBody f cs2).map (fun p => ('\t' :: p.1, p.2))
        else if e == 'u' then
          match hex4 cs2 with
          | none => none
          | some (n, rest) =>
            if 0xD800 ≤ n && n ≤ 0xDBFF then
              match rest with
              | '\\' :: 'u' :: rest2 =>
                match hex4 rest2 with
                | some (m, rest3) =>
                  if 0xDC00 ≤ m && m ≤ 0xDFFF then
                    (scanStringBody f rest3).map (fun p =>
                      (Char.ofNat (0x10000 + (n - 0xD800) * 0x400 + (m - 0xDC00)) :: p.1,
                        p.2))
                  else none
                | none => none
              | _ => none
            else if 0xDC00 ≤ n && n ≤ 0xDFFF then none
            else (scanStringBody f rest).map (fun p => (Char.ofNat n :: p.1, p.2))
        else none
    else if c.toNat < 0x20 then none
    else (scanStringBody f cs).map (fun p => (c :: p.1, p.2))

/-- The digit prefix of a list together with the remainder. -/
def digitSpan (l : List Char) : List Char × List Char :=
  (l.takeWhile Char.isDigit, l.dropWhile Char.isDigit)

/-- The optional fraction part `(\.\d+)?` of the JSON number regex. -/
def numFracPart (l : List Char) : List Char × List Char :=
  match l with
  | '.' :: rest =>
    let (ds, r) := digitSpan rest
    if ds.isEmpty then ([], l) else ('.' :: ds, r)
  | _ => ([], l)

/-- The optional exponent part `([eE][-+]?\d+)?` of the JSON number regex. -/
def numExpPart (l : List Char) : List Char × List Char :=
  match l with
  | e :: rest =>
    if e == 'e' || e == 'E' then
      match rest with
      | s :: rest2 =>
        if s == '+' || s == '-' then
          let (ds, r) := digitSpan rest2
          if ds.isEmpty then ([], l) else (e :: s :: ds, r)
        else
          let (ds, r) := digitSpan rest
          if ds.isEmpty then ([], l) else (e :: ds, r)
      | [] => ([], l)
    else ([], l)
  | [] => ([], l)

/-- The number lexeme matched by `json.scanner`'s
`NUMBER_RE = (-?(?:0|[1-9]\d*))(\.\d+)?([eE][-+]?\d+)?` at the head of the
input, with the remainder. -/
def scanNumber (l : List Char) : Option (List Char × List Char) :=
  let (sign, l1) : List Char × List Char :=
    match l with
    | '-' :: rest => (['-'], rest)
    | _ => ([], l)
  match l1 with
  | c :: rest =>
    if c == '0' then
      let (fr, r2) := numFracPart rest
      let (ex, r3) := numExpPart r2
      some (sign ++ '0' :: (fr ++ ex), r3)
    else if c.isDigit then
      let (ds, r1) := digitSpan rest
      let (fr, r2) := numFracPart r1
      let (ex, r3) := numExpPart r2
      some (sign ++ c :: ds ++ fr ++ ex, r3)
    else none
  | [] => none

/-- Position of the recursive JSON scanner: one value; the inside of an
object after its opening brace; object members at the opening quote of the
next key (with the Python dict built so far); the inside of an array after
its opening bracket; array elements at the start of the next element (with
the elements so far). -/
inductive ScanMode where
  | value
  | objectBody
  | members (acc : List (List Char × Json))
  | arrayBody
  | elements (acc : List Json)

/-- The recursive scanner of `json.scanner.py_make_scanner`, written as one
fuel-indexed function over the scanning position.  In `value` mode it
dispatches on the first character to string, object, array, the three
named literals, a number, or the non-standard constants NaN, Infinity and
-Infinity that Python accepts by default.  `fuel` only drives termination
and exceeds the input length wherever the scanner is applied. -/
def scanF : Nat → ScanMode → List Char → Option (Json × List Char)
  | 0, _, _ => none
  | f + 1, .value, l =>
    match l with
    | [] => none
    | c :: cs =>
      if c == '"' then
        (scanStringBody (cs.length + 1) cs).map (fun p => (Json.str p.1, p.2))
      else if c == lbrace then scanF f .objectBody (jsonSkipWs cs)
      else if c == '[' then scanF f .arrayBody (jsonSkipWs cs)
      else if c == 'n' then
        match cs with
        | 'u' :: 'l' :: 'l' :: r => some (Json.null, r)
        | _ => none
      else if c == 't' then
        match cs with
        | 'r' :: 'u' :: 'e' :: r => some (Json.bool true, r)
        | _ => none
      else if c == 'f' then
        match cs with
        | 'a' :: 'l' :: 's' :: 'e' :: r => some (Json.bool false, r)
        | _ => none
      else if c == '-' || c.isDigit then
        match scanNumber l with
        | some (lex, r) => some (Json.num lex, r)
        | none =>
          if "-Infinity".toList.isPrefixOf l then
            some (Json.num "-Infinity".toList, l.drop 9)
          else none
      else if c == 'N' then
        match cs with
        | 'a' :: 'N' :: r => some (Json.num "NaN".toList, r)
        | _ => none
      else if c == 'I' then
        if "Infinity".toList.isPrefixOf l then
          some (Json.num "Infinity".toList, l.drop 8)
        else none
      else none
  | f + 1, .objectBody, l =>
    match l with
    | c :: cs =>
      if c == rbrace then some (Json.obj [], cs)
      else scanF f (.members []) l
    | [] => none
  | f + 1, .members acc, l =>
    match l with
    | '"' :: cs =>
      match scanStringBody (cs.length + 1) cs with
      | none => none
      | some (k, r1) =>
        match jsonSkipWs r1 with
        | ':' :: r2 =>
          match scanF f .value (jsonSkipWs r2) with
          | none => none
          | some (v, r3) =>
            let acc2 := objInsert acc k v
            match jsonSkipWs r3 with
            | c :: r4 =>
              if c == rbrace then some (Json.obj acc2, r4)
              else if c == ',' then scanF f (.members acc2) (jsonSkipWs r4)
              else none
            | [] => none
        | _ => none
    | _ => none
  | f + 1, .arrayBody, l =>
    match l with
    | c :: cs =>
      if c == ']' then some (Json.arr [], cs)
      else scanF f (.elements []) l
    | [] => none
  | f + 1, .elements acc, l =>
    match scanF f .value l with
    | none => none
    | some (v, r1) =>
      match jsonSkipWs r1 with
      | c :: r2 =>
        if c == ']' then some (Json.arr (acc ++ [v]), r2)
        else if c == ',' then scanF f (.elements (acc ++ [v])) (jsonSkipWs r2)
        else none
      | [] => none

/-- One JSON value at the head of the input. -/
def scanValue (f : Nat) (l : List Char) : Option (Json × List Char) :=
  scanF f .value l

/-- `json.loads(s)`: skip leading JSON whitespace, scan one value, skip
trailing JSON whitespace, and require the whole input to be consumed;
`none` models a raised `json.JSONDecodeError`. -/
def jsonLoads (l : List Char) : Option Json :=
  let l1 := jsonSkipWs l
  match scanValue (3 * l1.length + 1) l1 with
  | some (v, rest) => if (jsonSkipWs rest).isEmpty then some v else none
  | none => none

/-- Lowercase hexadecimal digit, as used by Python's `\uXXXX` escapes. -/
def toHexDigit (n : Nat) : Char :=
  if n < 10 then Char.ofNat (48 + n) else Char.ofNat (87 + n)

/-- Four lowercase hexadecimal digits. -/
def toHex4 (n : Nat) : List Char :=
  [toHexDigit (n / 4096 % 16), toHexDigit (n / 256 % 16),
    toHexDigit (n / 16 % 16), toHexDigit (n % 16)]

/-- `json.encoder.py_encode_basestring_ascii` on one character: the default
`ensure_ascii=True` encoder keeps printable ASCII other than quote and
backslash, uses the short named escapes, and escapes everything else as
`\uXXXX` (with a surrogate pair above the BMP). -/
def escCharAscii (c : Char) : List Char :=
  if c == '"' then ['\\', '"']
  else if c == '\\' then ['\\', '\\']
  else if c == '\n' then ['\\', 'n']
  else if c == '\r' then ['\\', 'r']
  else if c == '\t' then ['\\', 't']
  else if c == '\x08' then ['\\', 'b']
  else if c == '\x0c' then ['\\', 'f']
  else if 0x20 ≤ c.toNat && c.toNat < 0x7f then [c]
  else if c.toNat < 0x10000 then '\\' :: 'u' :: toHex4 c.toNat
  else
    let n := c.toNat - 0x10000
    ('\\' :: 'u' :: toHex4 (0xD800 + n / 0x400)) ++
      ('\\' :: 'u' :: toHex4 (0xDC00 + n % 0x400))

/-- A JSON string literal as written by Python's default encoder. -/
def encodeStringAscii (s : List Char) : List Char :=
  '"' :: (s.map escCharAscii).flatten ++ ['"']

/-- Indentation prefix at nesting depth `d` for `json.dump(..., indent=2)`. -/
def indent2 (d : Nat) : List Char := List.replicate (2 * d) ' '

mutual

/-- `json.dump(value, f, indent=2)` with the default `ensure_ascii=True`
and the default separators for indented output (`,` and `: `): containers
open on their own line, members are indented two further spaces per level,
and empty containers are written inline.  Numeric lexemes are emitted
as scanned (no theorem below serialises a number). -/
def dumpValue (d : Nat) : Json → List Char
  | Json.null => "null".toList
  | Json.bool true => "true".toList
  | Json.bool false => "false".toList
  | Json.num lex => lex
  | Json.str s => encodeStringAscii s
  | Json.arr [] => "[]".toList
  | Json.arr (x :: xs) =>
    '[' :: '\n' :: dumpElems d (x :: xs) ++ '\n' :: indent2 d ++ [']']
  | Json.obj [] => [lbrace, rbrace]
  | Json.obj (kv :: kvs) =>
    lbrace :: '\n' :: dumpMems d (kv :: kvs) ++ '\n' :: indent2 d ++ [rbrace]

/-- Comma-and-newline separated array elements at depth `d + 1`. -/
def dumpElems (d : Nat) : List Json → List Char
  | [] => []
  | [x] => indent2 (d + 1) ++ dumpValue (d + 1) x
  | x :: y :: xs =>
    indent2 (d + 1) ++ dumpValue (d + 1) x ++ ',' :: '\n' ::
      dumpElems d (y :: xs)

/-- Comma-and-newline separated object members at depth `d + 1`, each as
`"key": value`. -/
def dumpMems (d : Nat) : List (List Char × Json) → List Char
  | [] => []
  | [(k, v)] =>
    indent2 (d + 1) ++ encodeStringAscii k ++ ':' :: ' ' :: dumpValue (d + 1) v
  | (k, v) :: kv :: kvs =>
    indent2 (d + 1) ++ encodeStringAscii k ++ ':' :: ' ' :: dumpValue (d + 1) v ++
      ',' :: '\n' :: dumpMems d (kv :: kvs)

end

/-- The serialised text produced by `json.dump(metadata, f, indent=2)`. -/
def jsonDumpIndent2 (j : Json) : List Char := dumpValue 0 j

/-- Whether a numeric lexeme denotes zero (sign stripped, every mantissa
character a zero digit or the decimal point). -/
def numLexIsZero (lex : List Char) : Bool :=
  let l := match lex with | '-' :: r => r | _ => lex
  let mant := l.takeWhile (fun c => !(c == 'e' || c == 'E'))
  mant.all (fun c => c == '0' || c == '.')

/-- Python truthiness of a `json.loads` result, as tested by
`if not metadata:` in both `process_research_paper` functions: `None`,
`False`, numeric zero, and empty string/list/dict are falsy. -/
def pyFalsy : Json → Bool
  | Json.null => true
  | Json.bool b => !b
  | Json.num lex => numLexIsZero lex
  | Json.str s => s.isEmpty
  | Json.arr xs => xs.isEmpty
  | Json.obj kvs => kvs.isEmpty

/-- The final path component (`pathlib.PurePath.name`, POSIX separators,
for the plain relative/absolute file paths the scripts build). -/
def pathName (p : List Char) : List Char :=
  (p.reverse.takeWhile (fun c => !(c == '/'))).reverse

/-- `pathlib.PurePath.stem`: the name without its last suffix; a leading
dot or a trailing dot is not a suffix separator. -/
def pathStem (p : List Char) : List Char :=
  let name := pathName p
  match name.reverse.findIdx? (· == '.') with
  | some jr =>
    let i := name.length - 1 - jr
    if 0 < i && i < name.length - 1 then name.take i else name
  | none => name

/-- `os.path.join(folder, name)` for POSIX paths, as used to place each
output artifact. -/
def osPathJoin (folder name : List Char) : List Char :=
  match name with
  | '/' :: _ => name
  | _ =>
    if folder.isEmpty then name
    else if folder.getLast? == some '/' then folder ++ name
    else folder ++ '/' :: name

/-- An opaque Python exception value; the retry wrapper and the pipeline
treat all exceptions alike, so only identity matters. -/
structure PyErr where
  code : Nat
deriving DecidableEq

/-! ## RetryPolicy

Both scripts decorate their backend call with
`@retry(wait=wait_random_exponential(min=1, max=120), stop=stop_after_attempt(10))`
(Extract_Metadata_With_LLM.py line 88, Extract_Metadata_With_LLM_ollama.py
line 38).  tenacity's `wait_exponential.__call__` computes
`high = max(min, min(multiplier * exp_base ** (attempt_number - 1), max))`
with `multiplier = 1`, `exp_base = 2`, `min = 1`, `max = 120`, and
`wait_random_exponential.__call__` then returns `random.uniform(0, high)`:
the `min` parameter bounds the top of the sampling window from below, not
the sampled delay itself.  The random draw is modelled by a `jitter`
factor in `[0, 1]` supplied per attempt. -/

/-- The upper end of tenacity's randomised wait window for the given
(1-based) attempt number, under the parameters used by both scripts. -/
def waitHigh (attempt : Nat) : ℚ :=
  max 1 (min ((2 : ℚ) ^ (attempt - 1)) 120)

/-- The delay drawn by `wait_random_exponential(min=1, max=120)` after the
given failed attempt: `random.uniform(0, high)`, with the uniform draw
modelled as `jitter * high` for a jitter in `[0, 1]`. -/
def waitRandomExponential (attempt : Nat) (jitter : ℚ) : ℚ :=
  jitter * waitHigh attempt

/-- Result of a tenacity-wrapped call: either the wrapped function's value
or tenacity's `RetryError` carrying the final attempt's exception (the
decorators use the default `reraise=False`). -/
inductive RetryResult (E A : Type) where
  | ok (a : A)
  | retryError (last : E)

/-- tenacity's attempt loop: run the current attempt; on success return,
on failure either give up (no attempts remaining, per `stop_after_attempt`)
or sleep for the randomised backoff delay and retry.  Returns the result
together with the list of inter-attempt delays slept, in order.
`call n` is the outcome of the n-th attempt (1-based); `remaining` counts
the attempts still allowed after the current one. -/
def retryAttempts {E A : Type} (call : Nat → Except E A) (jitter : Nat → ℚ) :
    Nat → Nat → RetryResult E A × List ℚ
  | attempt, 0 =>
    (match call attempt with
      | .ok a => .ok a
      | .error e => .retryError e, [])
  | attempt, remaining + 1 =>
    match call attempt with
    | .ok a => (.ok a, [])
    | .error _ =>
      let rest := retryAttempts call jitter (attempt + 1) remaining
      (rest.1, waitRandomExponential attempt (jitter attempt) :: rest.2)

/-- `stop_after_attempt(10)`: the wrapped call makes at most ten attempts. -/
def retryPolicyRun {E A : Type} (call : Nat → Except E A) (jitter : Nat → ℚ) :
    RetryResult E A × List ℚ :=
  retryAttempts call jitter 1 9

/-- Number of attempts actually executed by a `retryPolicyRun`: one more
than the number of inter-attempt sleeps. -/
def retryAttemptCount {E A : Type} (run : RetryResult E A × List ℚ) : Nat :=
  run.2.length + 1

/-! ## Startup configuration -/

/-- The fatal configuration error of Code.py lines 11-12. -/
inductive StartupError where
  | missingCredential
deriving DecidableEq

/-- Python truthiness of an `os.getenv` result: `None` and the empty
string are falsy. -/
def envTruthy (v : Option (List Char)) : Bool :=
  match v with
  | none => false
  | some s => !s.isEmpty

/-- The hosted client handle: `Together(api_key=...)` modelled as an
external collaborator that stores the key it was given. -/
structure TogetherClient where
  api_key : Option (List Char)

/-- Module initialisation of Code.py lines 8-17: read TOGETHER_API_KEY
from the environment, raise ValueError when it is unset or empty, and
otherwise build the client. -/
def codePyInit (togetherApiKey : Option (List Char)) :
    Except StartupError TogetherClient :=
  if envTruthy togetherApiKey then .ok ⟨togetherApiKey⟩
  else .error .missingCredential

/-- Module initialisation of Extract_Metadata_With_LLM.py lines 14-16:
read TOGETHER_API_KEY and build the client directly — no check of the
key is performed, so initialisation never raises a configuration error
from the repository's own code.  (Whatever the client constructor does
internally with a missing key is external-library behaviour.) -/
def llmPipelineInit (togetherApiKey : Option (List Char)) :
    Except StartupError TogetherClient :=
  .ok ⟨togetherApiKey⟩

/-! ## Response parsing -/

/-- Lines 133-144 of Extract_Metadata_With_LLM.py: strip the returned
content; an empty result is reported as the empty dict; otherwise a strict
`json.loads`, with a decode error also yielding the empty dict.  There is
no markdown-fence handling and no brace-extraction fallback in this
variant. -/
def hostedParseContent (content : List Char) : Json :=
  let c := pyStrip content
  if c.isEmpty then Json.obj []
  else
    match jsonLoads c with
    | some v => v
    | none => Json.obj []

/-- Lines 68-92 of Extract_Metadata_With_LLM_ollama.py: strip the
completion; an empty result is the empty dict; otherwise delete the two
markdown-fence tokens everywhere, attempt a strict `json.loads`, and on
failure fall back to the greedy first-brace-to-last-brace substring; if
that also fails to parse, the empty dict. -/
def ollamaParseContent (raw : List Char) : Json :=
  let c := pyStrip raw
  if c.isEmpty then Json.obj []
  else
    let c2 := subCloseFence (subJsonFence c)
    match jsonLoads c2 with
    | some v => v
    | none =>
      match braceSlice c2 with
      | some t =>
        match jsonLoads t with
        | some v => v
        | none => Json.obj []
      | none => Json.obj []

/-! ## Per-document pipeline and directory driver

The collaborators of one document run — the PDF text extraction and the
(already retry-wrapped) backend completion — are represented by their
outcomes, an exception or a returned string. -/

/-- Outcomes of the external collaborators for one document. -/
structure DocSim where
  extractText : Except PyErr (List Char)
  llmRaw : Except PyErr (List Char)

/-- The encoding argument passed to `open` when persisting an artifact. -/
inductive FileEncoding where
  | utf8
deriving DecidableEq

/-- One persisted artifact: `json.dump(metadata, f, indent=2)` into a file
opened with `open(output_path, 'w', encoding="utf-8")`. -/
structure WriteOp where
  path : List Char
  text : List Char
  encoding : FileEncoding

/-- `extract_metadata` of Extract_Metadata_With_LLM.py lines 96-148: the
whole body sits in a try/except, so a backend error (after the retry
wrapper gives up) becomes the empty dict, an empty response becomes the
empty dict, and otherwise the content is parsed by `hostedParseContent`.
Never raises. -/
def hostedExtractMetadata (llmRaw : Except PyErr (List Char)) : Json :=
  match llmRaw with
  | .error _ => Json.obj []
  | .ok content => hostedParseContent content

/-- `extract_metadata` of Extract_Metadata_With_LLM_ollama.py lines
50-96: `read_prompt` runs before the try block, so its exception
propagates to the caller; inside the try, a backend error becomes the
empty dict and otherwise the completion is parsed by
`ollamaParseContent`. -/
def ollamaExtractMetadata (promptRead : Except PyErr (List Char))
    (llmRaw : Except PyErr (List Char)) : Except PyErr Json :=
  match promptRead with
  | .error e => .error e
  | .ok _ =>
    .ok (match llmRaw with
      | .error _ => Json.obj []
      | .ok raw => ollamaParseContent raw)

/-- The exception a write raises when the output directory does not exist
(`open` on a path in a missing directory). -/
def fileNotFoundErr : PyErr := ⟨2⟩

/-- The body of `process_research_paper` in Extract_Metadata_With_LLM.py
lines 156-173, before its catch-all: extract the text (may raise), extract
metadata (never raises), skip the document when the metadata is falsy, and
otherwise write `Path(pdf_path).stem + '.json'` under the output folder
(raising when the folder is absent). -/
def hostedProcessBody (sim : DocSim) (output_folder pdf_path : List Char)
    (outDirOk : Bool) : Except PyErr (Option WriteOp) :=
  match sim.extractText with
  | .error e => .error e
  | .ok _content =>
    let metadata := hostedExtractMetadata sim.llmRaw
    if pyFalsy metadata then .ok none
    else if outDirOk then
      .ok (some ⟨osPathJoin output_folder (pathStem pdf_path ++ ".json".toList),
        jsonDumpIndent2 metadata, .utf8⟩)
    else .error fileNotFoundErr

/-- `process_research_paper` of Extract_Metadata_With_LLM.py lines
150-176: the body under `except Exception`, which logs and returns, so
every per-document error yields no artifact and no exception. -/
def hostedProcessResearchPaper (sim : DocSim) (output_folder pdf_path : List Char)
    (outDirOk : Bool) : Option WriteOp :=
  match hostedProcessBody sim output_folder pdf_path outDirOk with
  | .ok r => r
  | .error _ => none

/-- The body of `process_research_paper` in
Extract_Metadata_With_LLM_ollama.py lines 105-122 before its catch-all;
here `extract_metadata` itself may raise (prompt-file read). -/
def ollamaProcessBody (promptRead : Except PyErr (List Char)) (sim : DocSim)
    (output_folder pdf_path : List Char) (outDirOk : Bool) :
    Except PyErr (Option WriteOp) :=
  match sim.extractText with
  | .error e => .error e
  | .ok _content =>
    match ollamaExtractMetadata promptRead sim.llmRaw with
    | .error e => .error e
    | .ok metadata =>
      if pyFalsy metadata then .ok none
      else if outDirOk then
        .ok (some ⟨osPathJoin output_folder (pathStem pdf_path ++ ".json".toList),
          jsonDumpIndent2 metadata, .utf8⟩)
      else .error fileNotFoundErr

/-- `process_research_paper` of Extract_Metadata_With_LLM_ollama.py lines
98-125: body under `except Exception`. -/
def ollamaProcessResearchPaper (promptRead : Except PyErr (List Char))
    (sim : DocSim) (output_folder pdf_path : List Char) (outDirOk : Bool) :
    Option WriteOp :=
  match ollamaProcessBody promptRead sim output_folder pdf_path outDirOk with
  | .ok r => r
  | .error _ => none

/-- The extension literal `'.pdf'` of both directory drivers. -/
def pdfSuffix : List Char := ".pdf".toList

/-- `process_directory` of Extract_Metadata_With_LLM.py lines 178-185:
iterate the directory listing, and for each name whose lowercase form ends
in ".pdf" run the per-document pipeline on
`os.path.join(directory_path, filename)`; collect the artifacts written.
`oracle` gives each file's collaborator outcomes. -/
def hostedProcessDirectory (listing : List (List Char))
    (oracle : List Char → DocSim) (directory_path output_folder : List Char)
    (outDirOk : Bool) : List WriteOp :=
  match listing with
  | [] => []
  | filename :: rest =>
    if pyEndsWith (pyLower filename) pdfSuffix then
      (hostedProcessResearchPaper (oracle filename) output_folder
          (osPathJoin directory_path filename) outDirOk).toList ++
        hostedProcessDirectory rest oracle directory_path output_folder outDirOk
    else
      hostedProcessDirectory rest oracle directory_path output_folder outDirOk

/-- `process_directory` of Extract_Metadata_With_LLM_ollama.py lines
127-134, with the same filter and path join. -/
def ollamaProcessDirectory (promptRead : Except PyErr (List Char))
    (listing : List (List Char)) (oracle : List Char → DocSim)
    (directory_path output_folder : List Char) (outDirOk : Bool) : List WriteOp :=
  match listing with
  | [] => []
  | filename :: rest =>
    if pyEndsWith (pyLower filename) pdfSuffix then
      (ollamaProcessResearchPaper promptRead (oracle filename) output_folder
          (osPathJoin directory_path filename) outDirOk).toList ++
        ollamaProcessDirectory promptRead rest oracle directory_path output_folder outDirOk
    else
      ollamaProcessDirectory promptRead rest oracle directory_path output_folder outDirOk

/-- The `os.makedirs(output_folder, exist_ok=True)` call in the hosted
script's `__main__` block (Extract_Metadata_With_LLM.py line 194): ensure
the output directory exists before any document is processed.  The ollama
script has no corresponding call. -/
def hostedMainEnsureOutputDir (dirs : List (List Char)) (output_folder : List Char) :
    List (List Char) :=
  if output_folder ∈ dirs then dirs else output_folder :: dirs

/-- The string stored under a key of a top-level JSON object, if the key
is present and holds a string. -/
def strUnder (j : Json) (k : List Char) : Option (List Char) :=
  match objGet j k with
  | some (Json.str s) => some s
  | _ => none

/-- The raw response of the spec's end-to-end scenario A: a one-key JSON
object wrapped in a json-tagged markdown fence. -/
def scenarioA : List Char := "```json\n\x7b\"PaperTitle\": \"X\"\x7d\n```".toList

/-- The unwrapped JSON content of scenario A. -/
def scenarioAContent : List Char := "\x7b\"PaperTitle\": \"X\"\x7d".toList

/-- The raw response of the spec's end-to-end scenario B: a JSON object
surrounded by prose. -/
def scenarioB : List Char :=
  "Sure, here is the result: \x7b\"PaperTitle\": \"Y\"\x7d Hope that helps!".toList

/-- The brace-delimited JSON object embedded in scenario B. -/
def scenarioBObject : List Char := "\x7b\"PaperTitle\": \"Y\"\x7d".toList

/-- Following the spec's words (scenario A): the mapping the spec claims
the parse step yields, with every missing PaperMetadata key filled with
its default.  Defined from the spec, not from the code, to be compared
with what the code computes. -/
def specScenarioAResult : Json :=
  Json.obj
    [("PaperTitle".toList, Json.str "X".toList),
      ("PublicationYear".toList, Json.str []),
      ("Authors".toList, Json.arr []),
      ("AuthorContact".toList, Json.arr []),
      ("Abstract".toList, Json.str []),
      ("SummaryAbstract".toList, Json.str [])]

/-- A raw response wrapped in a json-tagged markdown fence. -/
def fenceTag (s : List Char) : List Char :=
  "```json\n".toList ++ s ++ "\n```".toList

/-- A raw response wrapped in an untagged markdown fence. -/
def fenceBare (s : List Char) : List Char :=
  "```\n".toList ++ s ++ "\n```".toList

/-- A raw response that is exactly the empty JSON object. -/
def emptyObjectText : List Char := "\x7b\x7d".toList

/-- Another raw response that strictly parses to the empty JSON object:
the same object amid whitespace. -/
def emptyObjectSpaced : List Char := "  \x7b \x7d\n".toList

/-- A raw response that no parse stage can interpret. -/
def unparsableText : List Char := "not json".toList

/-- A JSON object whose string value contains a bare fence token strictly
inside the text. -/
def fenceInValue : List Char := "\x7b\"Abstract\": \"a ``` b\"\x7d".toList

/-- A JSON object whose string value contains a json-tagged fence token
strictly inside the text. -/
def fenceJsonInValue : List Char := "\x7b\"Abstract\": \"x ```json y\"\x7d".toList

/-! ## Theorems -/

/-- Helper: a string of whitespace strips to nothing. -/
theorem pyStrip_eq_nil_of_all_ws {s : List Char} (h : ∀ c ∈ s, isPySpace c) :
    pyStrip s = [] := by
  have h1 : lstripWs s = [] := by
    simpa [lstripWs] using List.dropWhile_eq_nil_iff.mpr (by simpa using h)
  simp [pyStrip, h1, rstripWs]

/-- C1, counterexample.  For the scenario-A raw text, neither variant's
parse step yields the default-filled six-key PaperMetadata mapping the
claim describes: the local variant keeps only the key that was present and
the hosted variant (which strips no fences) fails its strict parse. -/
theorem c1_counterexample :
    ollamaParseContent scenarioA ≠ specScenarioAResult ∧
    hostedParseContent scenarioA ≠ specScenarioAResult := by
  constructor
  · intro h
    have h2 := congrArg topKeyCount h
    rw [show topKeyCount (ollamaParseContent scenarioA) = 1 from rfl,
      show topKeyCount specScenarioAResult = 6 from rfl] at h2
    exact absurd h2 (by decide)
  · intro h
    have h2 := congrArg topKeyCount h
    rw [show topKeyCount (hostedParseContent scenarioA) = 0 from rfl,
      show topKeyCount specScenarioAResult = 6 from rfl] at h2
    exact absurd h2 (by decide)

/-- C1, amended.  Neither variant validates the parsed mapping against the
PaperMetadata shape or fills in missing keys: the parse step returns the
parsed mapping as-is.  For the scenario-A raw text the local variant
yields exactly the one-key mapping that was present, and the hosted
variant, which has no fence handling, yields the empty mapping. -/
theorem c1_amended :
    ollamaParseContent scenarioA =
      Json.obj [("PaperTitle".toList, Json.str "X".toList)] ∧
    hostedParseContent scenarioA = Json.obj [] :=
  ⟨by rfl, by rfl⟩

/-- C2, counterexample.  The hosted variant has no brace-extraction
fallback: for the scenario-B raw text (a valid object surrounded by
prose) it returns the empty mapping, with no PaperTitle recovered. -/
theorem c2_counterexample :
    hostedParseContent scenarioB = Json.obj [] ∧
    strUnder (hostedParseContent scenarioB) "PaperTitle".toList = none :=
  ⟨by rfl, by rfl⟩

/-- C2, amended.  Only the local variant falls back, on strict-parse
failure, to the first-brace-through-last-brace substring and returns its
parse; the hosted variant returns the empty mapping whenever its strict
parse fails. -/
theorem c2_amended :
    (∀ (s t : List Char) (v : Json),
      (pyStrip s).isEmpty = false →
      jsonLoads (subCloseFence (subJsonFence (pyStrip s))) = none →
      braceSlice (subCloseFence (subJsonFence (pyStrip s))) = some t →
      jsonLoads t = some v →
      ollamaParseContent s = v) ∧
    (∀ u : List Char,
      (pyStrip u).isEmpty = false →
      jsonLoads (pyStrip u) = none →
      hostedParseContent u = Json.obj []) := by
  constructor
  · intro s t v _h0 h1 h2 h3
    simp only [ollamaParseContent, _h0, h1, h2, h3, Bool.false_eq_true, if_false]
  · intro u _h0 h1
    simp only [hostedParseContent, _h0, h1, Bool.false_eq_true, if_false]

/-- C2, witness: the amended theorem applied to the scenario-B raw text. -/
theorem c2_witness :
    ollamaParseContent scenarioB =
      Json.obj [("PaperTitle".toList, Json.str "Y".toList)] ∧
    hostedParseContent scenarioB = Json.obj [] :=
  ⟨c2_amended.1 scenarioB scenarioBObject _ (by rfl) (by rfl) (by rfl) (by rfl),
    c2_amended.2 scenarioB (by rfl) (by rfl)⟩

/-- C4, confirmed.  An empty or whitespace-only raw response makes both
variants' parse step return the empty-mapping sentinel; the functions are
total, so no exception escapes (the local variant's whole parse sits
inside its try/except and the hosted variant catches the only error its
parse can raise). -/
theorem c4_whitespace_only_response (s : List Char) (h : ∀ c ∈ s, isPySpace c) :
    hostedParseContent s = Json.obj [] ∧ ollamaParseContent s = Json.obj [] := by
  have h0 : pyStrip s = [] := pyStrip_eq_nil_of_all_ws h
  constructor
  · simp [hostedParseContent, h0]
  · simp [ollamaParseContent, h0]

/-- C4, witness: the whitespace-only and empty raw responses. -/
theorem c4_witness :
    (hostedParseContent "  \n\t ".toList = Json.obj [] ∧
      ollamaParseContent "  \n\t ".toList = Json.obj []) ∧
    (hostedParseContent [] = Json.obj [] ∧ ollamaParseContent [] = Json.obj []) :=
  ⟨c4_whitespace_only_response _ (by decide), c4_whitespace_only_response _ (by decide)⟩

/-- C9, confirmed.  Every raw response that strictly parses to the empty
JSON object — for the hosted variant, one whose stripped text parses to
the empty object; for the local variant, one whose stripped and
fence-cleaned text does — is treated by the per-document pipeline exactly
like an unparsable response: the pipeline returns early and writes no
artifact, indistinguishably from an unparsable response at the pipeline's
interface. -/
theorem c9_empty_object_equals_failure :
    (∀ (raw content folder pdf : List Char) (dirOk : Bool),
      jsonLoads (pyStrip raw) = some (Json.obj []) →
      hostedProcessResearchPaper ⟨.ok content, .ok raw⟩ folder pdf dirOk = none ∧
      hostedProcessResearchPaper ⟨.ok content, .ok raw⟩ folder pdf dirOk
        = hostedProcessResearchPaper ⟨.ok content, .ok unparsableText⟩ folder pdf
            dirOk) ∧
    (∀ (raw prompt content folder pdf : List Char) (dirOk : Bool),
      jsonLoads (subCloseFence (subJsonFence (pyStrip raw))) = some (Json.obj []) →
      ollamaProcessResearchPaper (.ok prompt) ⟨.ok content, .ok raw⟩ folder pdf dirOk
        = none ∧
      ollamaProcessResearchPaper (.ok prompt) ⟨.ok content, .ok raw⟩ folder pdf dirOk
        = ollamaProcessResearchPaper (.ok prompt) ⟨.ok content, .ok unparsableText⟩
            folder pdf dirOk) := by
  constructor
  · intro raw content folder pdf dirOk h
    have hp : hostedParseContent raw = Json.obj [] := by
      cases he : (pyStrip raw).isEmpty with
      | true => simp [hostedParseContent, he]
      | false => simp [hostedParseContent, he, h]
    refine ⟨?_, ?_⟩ <;>
      simp [hostedProcessResearchPaper, hostedProcessBody, hostedExtractMetadata,
        hp, show hostedParseContent unparsableText = Json.obj [] from rfl, pyFalsy]
  · intro raw prompt content folder pdf dirOk h
    have hp : ollamaParseContent raw = Json.obj [] := by
      cases he : (pyStrip raw).isEmpty with
      | true => simp [ollamaParseContent, he]
      | false => simp [ollamaParseContent, he, h]
    refine ⟨?_, ?_⟩ <;>
      simp [ollamaProcessResearchPaper, ollamaProcessBody, ollamaExtractMetadata,
        hp, show ollamaParseContent unparsableText = Json.obj [] from rfl, pyFalsy]

/-- C9, witness: the theorem applied to two distinct responses that parse
to the empty object — the bare "\x7b\x7d" literal and the same object amid
whitespace. -/
theorem c9_witness :
    (hostedProcessResearchPaper ⟨.ok [], .ok emptyObjectSpaced⟩ "out".toList
        "data/a.pdf".toList true = none ∧
      hostedProcessResearchPaper ⟨.ok [], .ok emptyObjectSpaced⟩ "out".toList
        "data/a.pdf".toList true
        = hostedProcessResearchPaper ⟨.ok [], .ok unparsableText⟩ "out".toList
            "data/a.pdf".toList true) ∧
    (ollamaProcessResearchPaper (.ok "prompt".toList) ⟨.ok [], .ok emptyObjectText⟩
        "out".toList "data/a.pdf".toList true = none ∧
      ollamaProcessResearchPaper (.ok "prompt".toList) ⟨.ok [], .ok emptyObjectText⟩
        "out".toList "data/a.pdf".toList true
        = ollamaProcessResearchPaper (.ok "prompt".toList) ⟨.ok [], .ok unparsableText⟩
            "out".toList "data/a.pdf".toList true) :=
  ⟨c9_empty_object_equals_failure.1 emptyObjectSpaced [] "out".toList
      "data/a.pdf".toList true (by rfl),
    c9_empty_object_equals_failure.2 emptyObjectText "prompt".toList [] "out".toList
      "data/a.pdf".toList true (by rfl)⟩

/-- C10, confirmed.  The local variant's cleanup deletes the fence tokens
wherever they occur, not only as a leading/trailing wrapper: for a JSON
object whose Abstract value contains a ``` token (respectively a
```json token) strictly inside the text, the cleaned string differs from
the original and the parsed value is altered relative to a strict parse
of the original. -/
theorem c10_fence_tokens_deleted_everywhere :
    subCloseFence (subJsonFence fenceInValue) ≠ fenceInValue ∧
    jsonLoads fenceInValue =
      some (Json.obj [("Abstract".toList, Json.str "a ``` b".toList)]) ∧
    ollamaParseContent fenceInValue =
      Json.obj [("Abstract".toList, Json.str "a b".toList)] ∧
    strUnder (ollamaParseContent fenceInValue) "Abstract".toList ≠
      some "a ``` b".toList ∧
    subCloseFence (subJsonFence fenceJsonInValue) ≠ fenceJsonInValue ∧
    jsonLoads fenceJsonInValue =
      some (Json.obj [("Abstract".toList, Json.str "x ```json y".toList)]) ∧
    ollamaParseContent fenceJsonInValue =
      Json.obj [("Abstract".toList, Json.str "x y".toList)] :=
  ⟨by decide, by rfl, by rfl, by decide, by decide, by rfl, by rfl⟩

/-- Helper: a successful attempt ends the retry loop at once, whatever the
remaining budget. -/
theorem retryAttempts_of_ok {E A : Type} {call : Nat → Except E A} {jitter : Nat → ℚ}
    {a : Nat} {v : A} (rem : Nat) (h : call a = Except.ok v) :
    retryAttempts call jitter a rem = (RetryResult.ok v, []) := by
  cases rem <;> simp [retryAttempts, h]

/-- Helper: the top of the randomised wait window never exceeds the
configured maximum. -/
theorem waitHigh_le (n : Nat) : waitHigh n ≤ 120 := by
  unfold waitHigh
  exact max_le (by norm_num) (min_le_right _ _)

/-- Helper: the top of the randomised wait window is nonnegative. -/
theorem waitHigh_nonneg (n : Nat) : 0 ≤ waitHigh n :=
  le_trans (by norm_num) (le_max_left _ _)

/-- Helper: with a jitter in the unit interval, a drawn delay never
exceeds the configured maximum of 120. -/
theorem waitRandomExponential_le {j : ℚ} (n : Nat) (_h0 : 0 ≤ j) (h1 : j ≤ 1) :
    waitRandomExponential n j ≤ 120 := by
  unfold waitRandomExponential
  calc j * waitHigh n ≤ 1 * 120 :=
        mul_le_mul h1 (waitHigh_le n) (waitHigh_nonneg n) (by norm_num)
    _ = 120 := one_mul _

/-- Helper: every delay slept by the retry loop is at most 120. -/
theorem retryAttempts_delays_le {E A : Type} (call : Nat → Except E A)
    (jitter : Nat → ℚ) (hj : ∀ k, 0 ≤ jitter k ∧ jitter k ≤ 1) :
    ∀ (rem a : Nat), ∀ d ∈ (retryAttempts call jitter a rem).2, d ≤ 120 := by
  intro rem
  induction rem with
  | zero =>
    intro a d hd
    cases h : call a <;> simp [retryAttempts, h] at hd
  | succ rem ih =>
    intro a d hd
    cases h : call a with
    | ok v => simp [retryAttempts, h] at hd
    | error e =>
      simp only [retryAttempts, h] at hd
      rcases List.mem_cons.mp hd with rfl | hmem
      · exact waitRandomExponential_le a (hj a).1 (hj a).2
      · exact ih (a + 1) d hmem

/-- Helper: if the attempts starting at `a` fail `j` times and the next
one succeeds, the loop returns the success value after exactly `j`
sleeps. -/
theorem retryAttempts_fail_then_ok {E A : Type} {call : Nat → Except E A}
    {jitter : Nat → ℚ} {v : A} :
    ∀ (j rem a : Nat), j ≤ rem →
      (∀ k, a ≤ k → k < a + j → ∃ e, call k = Except.error e) →
      call (a + j) = Except.ok v →
      (retryAttempts call jitter a rem).1 = RetryResult.ok v ∧
        (retryAttempts call jitter a rem).2.length = j := by
  intro j
  induction j with
  | zero =>
    intro rem a _ _ hok
    rw [Nat.add_zero] at hok
    rw [retryAttempts_of_ok rem hok]
    exact ⟨rfl, rfl⟩
  | succ j ih =>
    intro rem a hle hfail hok
    obtain ⟨rem', rfl⟩ : ∃ r, rem = r + 1 := ⟨rem - 1, by omega⟩
    obtain ⟨e, he⟩ := hfail a (le_refl a) (by omega)
    have hstep := ih rem' (a + 1) (by omega)
      (fun k h1 h2 => hfail k (by omega) (by omega))
      (by rw [show a + 1 + j = a + (j + 1) by omega]; exact hok)
    simp only [retryAttempts, he]
    exact ⟨hstep.1, by simp [hstep.2]⟩

/-- Helper: if every attempt fails, the loop exhausts its whole budget and
reports a retry error. -/
theorem retryAttempts_all_fail {E A : Type} {call : Nat → Except E A}
    {jitter : Nat → ℚ} (hf : ∀ k, ∃ e, call k = Except.error e) :
    ∀ (rem a : Nat),
      (∃ e, (retryAttempts call jitter a rem).1 = RetryResult.retryError e) ∧
        (retryAttempts call jitter a rem).2.length = rem := by
  intro rem
  induction rem with
  | zero =>
    intro a
    obtain ⟨e, he⟩ := hf a
    exact ⟨⟨e, by simp [retryAttempts, he]⟩, by simp [retryAttempts, he]⟩
  | succ rem ih =>
    intro a
    obtain ⟨e, he⟩ := hf a
    refine ⟨⟨((ih (a + 1)).1).choose, ?_⟩, ?_⟩
    · simp only [retryAttempts, he]
      exact ((ih (a + 1)).1).choose_spec
    · simp only [retryAttempts, he, List.length_cons]
      rw [(ih (a + 1)).2]

/-- C5, counterexample.  With a zero jitter draw — which
`random.uniform(0, high)` permits — the first inter-attempt delay of a
retried run is 0, which is not at least 1 time unit as the claim states. -/
theorem c5_counterexample :
    (retryPolicyRun (fun _ => (Except.error (⟨0⟩ : PyErr) : Except PyErr Nat))
        (fun _ => 0)).2.head? = some 0 ∧ ¬ (1 : ℚ) ≤ 0 := by
  constructor
  · show (retryAttempts _ _ 1 (8 + 1)).2.head? = some 0
    simp only [retryAttempts]
    simp [waitRandomExponential]
  · norm_num

/-- C5, amended.  A wrapped call that fails N times and then succeeds
(N < 10) ultimately returns the success value after exactly N + 1
attempts; a call that always fails raises tenacity's retry error after
exactly 10 attempts; every inter-attempt delay is at most 120 time units
(but is drawn uniformly from 0 up to the windowed bound, so it can be
below 1); and exceptions are retried without distinction — the error
values are arbitrary and never inspected. -/
theorem c5_amended {A : Type} (call failcall : Nat → Except PyErr A)
    (jitter : Nat → ℚ) (N : Nat) (v : A)
    (hN : N < 10)
    (hfails : ∀ k, 1 ≤ k → k ≤ N → ∃ e, call k = Except.error e)
    (hok : call (N + 1) = Except.ok v)
    (hallfail : ∀ k, ∃ e, failcall k = Except.error e)
    (hjit : ∀ k, 0 ≤ jitter k ∧ jitter k ≤ 1) :
    (retryPolicyRun call jitter).1 = RetryResult.ok v ∧
    retryAttemptCount (retryPolicyRun call jitter) = N + 1 ∧
    (∃ e, (retryPolicyRun failcall jitter).1 = RetryResult.retryError e) ∧
    retryAttemptCount (retryPolicyRun failcall jitter) = 10 ∧
    (∀ d ∈ (retryPolicyRun call jitter).2, d ≤ 120) ∧
    (∀ d ∈ (retryPolicyRun failcall jitter).2, d ≤ 120) := by
  have hmain := @retryAttempts_fail_then_ok PyErr A call jitter v N 9 1 (by omega)
    (fun k h1 h2 => hfails k h1 (by omega))
    (by rw [Nat.add_comm 1 N]; exact hok)
  have hfail := @retryAttempts_all_fail PyErr A failcall jitter hallfail 9 1
  refine ⟨hmain.1, ?_, hfail.1, ?_, ?_, ?_⟩
  · simp [retryAttemptCount, retryPolicyRun, hmain.2]
  · simp [retryAttemptCount, retryPolicyRun, hfail.2]
  · exact retryAttempts_delays_le call jitter hjit 9 1
  · exact retryAttempts_delays_le failcall jitter hjit 9 1

/-- C5, witness: the amended theorem applied to a call that fails twice
and then returns 42, and a call that always fails, with jitter one half. -/
theorem c5_witness :
    (retryPolicyRun
        (fun k => if k < 3 then Except.error ⟨k⟩ else (Except.ok 42 : Except PyErr Nat))
        (fun _ => 1 / 2)).1 = RetryResult.ok 42 ∧
    retryAttemptCount (retryPolicyRun
      (fun k => if k < 3 then Except.error ⟨k⟩ else (Except.ok 42 : Except PyErr Nat))
      (fun _ => 1 / 2)) = 2 + 1 ∧
    (∃ e, (retryPolicyRun (fun k => (Except.error (⟨k⟩ : PyErr) : Except PyErr Nat))
        (fun _ => 1 / 2)).1 = RetryResult.retryError e) ∧
    retryAttemptCount (retryPolicyRun
      (fun k => (Except.error (⟨k⟩ : PyErr) : Except PyErr Nat))
      (fun _ => 1 / 2)) = 10 ∧
    (∀ d ∈ (retryPolicyRun
        (fun k => if k < 3 then Except.error ⟨k⟩ else (Except.ok 42 : Except PyErr Nat))
        (fun _ => 1 / 2)).2, d ≤ 120) ∧
    (∀ d ∈ (retryPolicyRun (fun k => (Except.error (⟨k⟩ : PyErr) : Except PyErr Nat))
        (fun _ => 1 / 2)).2, d ≤ 120) :=
  c5_amended
    (fun k => if k < 3 then Except.error ⟨k⟩ else (Except.ok 42 : Except PyErr Nat))
    (fun k => (Except.error (⟨k⟩ : PyErr) : Except PyErr Nat))
    (fun _ => 1 / 2) 2 42 (by norm_num)
    (fun k h1 h2 => ⟨⟨k⟩, by simp [show k < 3 by omega]⟩)
    (by norm_num)
    (fun k => ⟨⟨k⟩, rfl⟩)
    (fun k => by norm_num)

/-- C6, counterexample.  With the credential absent from the environment,
the hosted pipeline script's module initialisation succeeds — no
configuration error is raised by the repository's code — and the
directory driver then runs over documents (each backend failure being
handled per document). -/
theorem c6_counterexample :
    llmPipelineInit none = Except.ok ⟨none⟩ ∧
    codePyInit none = Except.error StartupError.missingCredential ∧
    hostedProcessDirectory ["paper.pdf".toList]
      (fun _ => ⟨Except.ok [], Except.error ⟨1⟩⟩)
      "data".toList "out".toList true = [] :=
  ⟨rfl, rfl, rfl⟩

/-- C6, amended.  When TOGETHER_API_KEY is unset or empty, Code.py raises
its ValueError at startup, before its request; the hosted extraction
pipeline performs no such check — it constructs the client around the
missing key and proceeds. -/
theorem c6_amended (env : Option (List Char)) (h : env = none ∨ env = some []) :
    codePyInit env = Except.error StartupError.missingCredential ∧
    llmPipelineInit env = Except.ok ⟨env⟩ := by
  rcases h with rfl | rfl <;> exact ⟨rfl, rfl⟩

/-- C6, witness: the amended theorem at the absent credential. -/
theorem c6_witness :
    codePyInit none = Except.error StartupError.missingCredential ∧
    llmPipelineInit none = Except.ok ⟨none⟩ :=
  c6_amended none (Or.inl rfl)

/-- C7, confirmed.  Every per-document error — a text-extraction error, a
backend error surviving the retry wrapper, and (for the local variant) a
prompt-file error — is absorbed inside the per-document pipeline, which
yields no artifact instead of propagating; consequently a document whose
pipeline yields nothing contributes nothing to a directory batch, and the
rest of the batch is exactly what it would have been without it. -/
theorem c7_per_document_isolation :
    (∀ (sim : DocSim) (folder pdf : List Char) (dirOk : Bool) (e : PyErr),
      sim.extractText = Except.error e →
      hostedProcessResearchPaper sim folder pdf dirOk = none) ∧
    (∀ (content : List Char) (e : PyErr) (folder pdf : List Char) (dirOk : Bool),
      hostedProcessResearchPaper ⟨Except.ok content, Except.error e⟩ folder pdf dirOk
        = none) ∧
    (∀ (promptRead : Except PyErr (List Char)) (sim : DocSim)
        (folder pdf : List Char) (dirOk : Bool) (e : PyErr),
      sim.extractText = Except.error e →
      ollamaProcessResearchPaper promptRead sim folder pdf dirOk = none) ∧
    (∀ (e : PyErr) (sim : DocSim) (folder pdf : List Char) (dirOk : Bool),
      ollamaProcessResearchPaper (Except.error e) sim folder pdf dirOk = none) ∧
    (∀ (prompt content : List Char) (e : PyErr) (folder pdf : List Char)
        (dirOk : Bool),
      ollamaProcessResearchPaper (Except.ok prompt)
        ⟨Except.ok content, Except.error e⟩ folder pdf dirOk = none) ∧
    (∀ (listing₁ listing₂ : List (List Char)) (bad : List Char)
        (oracle : List Char → DocSim) (dirp folder : List Char) (dirOk : Bool),
      hostedProcessResearchPaper (oracle bad) folder (osPathJoin dirp bad) dirOk
          = none →
      hostedProcessDirectory (listing₁ ++ bad :: listing₂) oracle dirp folder dirOk
        = hostedProcessDirectory listing₁ oracle dirp folder dirOk ++
            hostedProcessDirectory listing₂ oracle dirp folder dirOk) ∧
    (∀ (promptRead : Except PyErr (List Char)) (listing₁ listing₂ : List (List Char))
        (bad : List Char) (oracle : List Char → DocSim) (dirp folder : List Char)
        (dirOk : Bool),
      ollamaProcessResearchPaper promptRead (oracle bad) folder
          (osPathJoin dirp bad) dirOk = none →
      ollamaProcessDirectory promptRead (listing₁ ++ bad :: listing₂) oracle dirp
          folder dirOk
        = ollamaProcessDirectory promptRead listing₁ oracle dirp folder dirOk ++
            ollamaProcessDirectory promptRead listing₂ oracle dirp folder dirOk) := by
  refine ⟨?_, ?_, ?_, ?_, ?_, ?_, ?_⟩
  · intro sim folder pdf dirOk e he
    simp [hostedProcessResearchPaper, hostedProcessBody, he]
  · intro content e folder pdf dirOk
    simp [hostedProcessResearchPaper, hostedProcessBody, hostedExtractMetadata, pyFalsy]
  · intro promptRead sim folder pdf dirOk e he
    simp [ollamaProcessResearchPaper, ollamaProcessBody, he]
  · intro e sim folder pdf dirOk
    cases he : sim.extractText with
    | error e2 => simp [ollamaProcessResearchPaper, ollamaProcessBody, he]
    | ok c => simp [ollamaProcessResearchPaper, ollamaProcessBody, he, ollamaExtractMetadata]
  · intro prompt content e folder pdf dirOk
    simp [ollamaProcessResearchPaper, ollamaProcessBody, ollamaExtractMetadata, pyFalsy]
  · intro listing₁ listing₂ bad oracle dirp folder dirOk hbad
    induction listing₁ with
    | nil =>
      cases hm : pyEndsWith (pyLower bad) pdfSuffix with
      | true => simp [hostedProcessDirectory, hm, hbad]
      | false => simp [hostedProcessDirectory, hm]
    | cons x xs ih =>
      cases hm : pyEndsWith (pyLower x) pdfSuffix with
      | true => simp [hostedProcessDirectory, hm, ih, List.append_assoc]
      | false => simp [hostedProcessDirectory, hm, ih]
  · intro promptRead listing₁ listing₂ bad oracle dirp folder dirOk hbad
    induction listing₁ with
    | nil =>
      cases hm : pyEndsWith (pyLower bad) pdfSuffix with
      | true => simp [ollamaProcessDirectory, hm, hbad]
      | false => simp [ollamaProcessDirectory, hm]
    | cons x xs ih =>
      cases hm : pyEndsWith (pyLower x) pdfSuffix with
      | true => simp [ollamaProcessDirectory, hm, ih, List.append_assoc]
      | false => simp [ollamaProcessDirectory, hm, ih]

/-- C7, witness: the isolation theorem applied to a three-document batch
whose middle document fails text extraction while its neighbours succeed. -/
theorem c7_witness :
    hostedProcessResearchPaper ⟨Except.error ⟨1⟩, Except.ok scenarioAContent⟩
      "out".toList "data/bad.pdf".toList true = none ∧
    hostedProcessDirectory
        (["a.pdf".toList] ++ "bad.pdf".toList :: ["c.pdf".toList])
        (fun n => if n = "bad.pdf".toList then ⟨Except.error ⟨1⟩, Except.ok scenarioAContent⟩
          else ⟨Except.ok [], Except.ok scenarioAContent⟩)
        "data".toList "out".toList true
      = hostedProcessDirectory ["a.pdf".toList]
          (fun n => if n = "bad.pdf".toList then ⟨Except.error ⟨1⟩, Except.ok scenarioAContent⟩
            else ⟨Except.ok [], Except.ok scenarioAContent⟩)
          "data".toList "out".toList true ++
        hostedProcessDirectory ["c.pdf".toList]
          (fun n => if n = "bad.pdf".toList then ⟨Except.error ⟨1⟩, Except.ok scenarioAContent⟩
            else ⟨Except.ok [], Except.ok scenarioAContent⟩)
          "data".toList "out".toList true :=
  ⟨c7_per_document_isolation.1 _ _ _ _ ⟨1⟩ rfl,
    c7_per_document_isolation.2.2.2.2.2.1 _ _ _ _ _ _ _
      (c7_per_document_isolation.1 _ _ _ _ ⟨1⟩ rfl)⟩

/-- C8, counterexample.  In the local variant nothing ever creates the
output directory: for a directory holding one matching document whose
extraction and backend both succeed, an absent output directory yields no
artifact at all (the write raises and the document is skipped), while the
same run with the directory present yields exactly the claimed artifact —
so "the configured output directory, which is created if absent" fails on
the code. -/
theorem c8_counterexample :
    ollamaProcessDirectory (Except.ok "prompt".toList) ["paper.pdf".toList]
      (fun _ => ⟨Except.ok [], Except.ok scenarioAContent⟩)
      "data".toList "extracted_metadata".toList false = [] ∧
    ollamaProcessDirectory (Except.ok "prompt".toList) ["paper.pdf".toList]
      (fun _ => ⟨Except.ok [], Except.ok scenarioAContent⟩)
      "data".toList "extracted_metadata".toList true =
      [⟨"extracted_metadata/paper.json".toList,
        jsonDumpIndent2 (Json.obj [("PaperTitle".toList, Json.str "X".toList)]),
        FileEncoding.utf8⟩] :=
  ⟨by rfl, by rfl⟩

/-- C8, amended.  Exactly the files whose lowercased name ends in ".pdf"
are processed (both drivers); every artifact a per-document pipeline
writes is named by replacing the input's extension with ".json" under the
output folder, opened with UTF-8 encoding, and holds the `indent=2`
serialisation of the metadata; the hosted script's startup creates the
output directory if absent, while the local variant never creates it and
an absent directory makes each document's write fail and be skipped.  The
last conjunct shows the two-space indentation concretely. -/
theorem c8_amended :
    (∀ (listing : List (List Char)) (oracle : List Char → DocSim)
        (dirp folder : List Char) (dirOk : Bool),
      hostedProcessDirectory listing oracle dirp folder dirOk =
        hostedProcessDirectory
          (listing.filter (fun n => pyEndsWith (pyLower n) pdfSuffix))
          oracle dirp folder dirOk) ∧
    (∀ (promptRead : Except PyErr (List Char)) (listing : List (List Char))
        (oracle : List Char → DocSim) (dirp folder : List Char) (dirOk : Bool),
      ollamaProcessDirectory promptRead listing oracle dirp folder dirOk =
        ollamaProcessDirectory promptRead
          (listing.filter (fun n => pyEndsWith (pyLower n) pdfSuffix))
          oracle dirp folder dirOk) ∧
    (∀ (sim : DocSim) (folder pdf : List Char) (dirOk : Bool) (w : WriteOp),
      hostedProcessResearchPaper sim folder pdf dirOk = some w →
      w.path = osPathJoin folder (pathStem pdf ++ ".json".toList) ∧
      w.encoding = FileEncoding.utf8 ∧
      ∃ m, w.text = jsonDumpIndent2 m ∧ pyFalsy m = false) ∧
    (∀ (promptRead : Except PyErr (List Char)) (sim : DocSim)
        (folder pdf : List Char) (dirOk : Bool) (w : WriteOp),
      ollamaProcessResearchPaper promptRead sim folder pdf dirOk = some w →
      w.path = osPathJoin folder (pathStem pdf ++ ".json".toList) ∧
      w.encoding = FileEncoding.utf8 ∧
      ∃ m, w.text = jsonDumpIndent2 m ∧ pyFalsy m = false) ∧
    (∀ (dirs : List (List Char)) (folder : List Char),
      folder ∈ hostedMainEnsureOutputDir dirs folder) ∧
    (∀ (promptRead : Except PyErr (List Char)) (sim : DocSim)
        (folder pdf : List Char),
      ollamaProcessResearchPaper promptRead sim folder pdf false = none) ∧
    jsonDumpIndent2 (Json.obj [("PaperTitle".toList, Json.str "X".toList)]) =
      "\x7b\n  \"PaperTitle\": \"X\"\n\x7d".toList := by
  refine ⟨?_, ?_, ?_, ?_, ?_, ?_, ?_⟩
  · intro listing oracle dirp folder dirOk
    induction listing with
    | nil => rfl
    | cons x xs ih =>
      cases hm : pyEndsWith (pyLower x) pdfSuffix with
      | true => simp [hostedProcessDirectory, List.filter_cons, hm, ih]
      | false => simp [hostedProcessDirectory, List.filter_cons, hm, ih]
  · intro promptRead listing oracle dirp folder dirOk
    induction listing with
    | nil => rfl
    | cons x xs ih =>
      cases hm : pyEndsWith (pyLower x) pdfSuffix with
      | true => simp [ollamaProcessDirectory, List.filter_cons, hm, ih]
      | false => simp [ollamaProcessDirectory, List.filter_cons, hm, ih]
  · intro sim folder pdf dirOk w h
    rcases he : sim.extractText with e | content
    · simp [hostedProcessResearchPaper, hostedProcessBody, he] at h
    · simp only [hostedProcessResearchPaper, hostedProcessBody, he] at h
      cases hf : pyFalsy (hostedExtractMetadata sim.llmRaw) with
      | true => simp [hf] at h
      | false =>
        cases dirOk with
        | false => simp [hf] at h
        | true =>
          simp only [hf, Bool.false_eq_true, if_false, if_true] at h
          cases h
          exact ⟨rfl, rfl, hostedExtractMetadata sim.llmRaw, rfl, hf⟩
  · intro promptRead sim folder pdf dirOk w h
    rcases hp : promptRead with e | p
    · simp [ollamaProcessResearchPaper, ollamaProcessBody, ollamaExtractMetadata,
        hp] at h
      rcases he : sim.extractText with e2 | c <;> simp [he] at h
    · rcases he : sim.extractText with e2 | content
      · simp [ollamaProcessResearchPaper, ollamaProcessBody, he] at h
      · simp only [ollamaProcessResearchPaper, ollamaProcessBody,
          ollamaExtractMetadata, hp, he] at h
        cases hf : pyFalsy (match sim.llmRaw with
          | Except.error _ => Json.obj []
          | Except.ok raw => ollamaParseContent raw) with
        | true => simp [hf] at h
        | false =>
          cases dirOk with
          | false => simp [hf] at h
          | true =>
            simp only [hf, Bool.false_eq_true, if_false, if_true] at h
            cases h
            exact ⟨rfl, rfl, _, rfl, hf⟩
  · intro dirs folder
    by_cases hm : folder ∈ dirs <;> simp [hostedMainEnsureOutputDir, hm]
  · intro promptRead sim folder pdf
    rcases hp : promptRead with e | p
    · rcases he : sim.extractText with e2 | c <;>
        simp [ollamaProcessResearchPaper, ollamaProcessBody, ollamaExtractMetadata,
          hp, he]
    · rcases he : sim.extractText with e2 | content
      · simp [ollamaProcessResearchPaper, ollamaProcessBody, he]
      · simp only [ollamaProcessResearchPaper, ollamaProcessBody,
          ollamaExtractMetadata, hp, he]
        cases hf : pyFalsy (match sim.llmRaw with
          | Except.error _ => Json.obj []
          | Except.ok raw => ollamaParseContent raw) with
        | true => simp [hf]
        | false => simp [hf]
  · have hkey : encodeStringAscii "PaperTitle".toList = "\"PaperTitle\"".toList := by
      decide
    have hval : encodeStringAscii "X".toList = "\"X\"".toList := by decide
    simp only [jsonDumpIndent2, dumpValue, dumpMems, hkey, hval, indent2]
    decide

/-- C8, witness: the amended theorem's per-document conjuncts applied to a
successful run over `data/paper.pdf`, together with the concrete
directory-creation fact for the hosted script's startup. -/
theorem c8_witness :
    (hostedProcessResearchPaper ⟨Except.ok [], Except.ok scenarioAContent⟩
        "out".toList "data/paper.pdf".toList true).elim False
      (fun w => w.path = osPathJoin "out".toList
          (pathStem "data/paper.pdf".toList ++ ".json".toList) ∧
        w.encoding = FileEncoding.utf8 ∧
        ∃ m, w.text = jsonDumpIndent2 m ∧ pyFalsy m = false) ∧
    "out".toList ∈ hostedMainEnsureOutputDir [] "out".toList ∧
    ollamaProcessResearchPaper (Except.ok "prompt".toList)
      ⟨Except.ok [], Except.ok scenarioAContent⟩ "out".toList
      "data/paper.pdf".toList false = none :=
  ⟨c8_amended.2.2.1 ⟨Except.ok [], Except.ok scenarioAContent⟩
      "out".toList "data/paper.pdf".toList true _ rfl,
    c8_amended.2.2.2.2.1 [] "out".toList,
    c8_amended.2.2.2.2.2.1 (Except.ok "prompt".toList)
      ⟨Except.ok [], Except.ok scenarioAContent⟩ "out".toList
      "data/paper.pdf".toList⟩

/-! ### Fence-stripping lemmas

The claim that a fenced response parses like its unwrapped content needs a
collection of facts about the two `re.sub` models on backtick-free
content. -/

/-- Helper: the fence-open pattern cannot match at a non-backtick head. -/
theorem tickJsonNoMatch {c : Char} {cs : List Char} (h : ¬ c = '`') :
    tickJsonLit.isPrefixOf (c :: cs) = false := by
  have hb : ('`' == c) = false := by
    rw [beq_eq_false_iff_ne]
    exact fun hh => h hh.symm
  simp [tickJsonLit, List.isPrefixOf_cons₂, hb]

/-- Helper: the bare fence token cannot match at a non-backtick head. -/
theorem tick3NoMatch {c : Char} {cs : List Char} (h : ¬ c = '`') :
    tick3Lit.isPrefixOf (c :: cs) = false := by
  have hb : ('`' == c) = false := by
    rw [beq_eq_false_iff_ne]
    exact fun hh => h hh.symm
  simp [tick3Lit, List.isPrefixOf_cons₂, hb]

/-- Helper: a list matched by the bare fence token starts with a backtick. -/
theorem tick3MatchHead {r : List Char} (h : tick3Lit.isPrefixOf r = true) :
    ∃ rs, r = '`' :: rs := by
  cases r with
  | nil => simp [tick3Lit] at h
  | cons a rs =>
    refine ⟨rs, ?_⟩
    simp only [tick3Lit] at h
    rw [show ("```".toList : List Char) = '`' :: "``".toList from rfl,
      List.isPrefixOf_cons₂, Bool.and_eq_true, beq_iff_eq] at h
    rw [← h.1]

/-- Helper: the JSON whitespace class is contained in Python's. -/
theorem isPySpace_of_isJsonWs {c : Char} (h : isJsonWs c = true) :
    isPySpace c = true := by
  simp only [isJsonWs, Bool.or_eq_true, beq_iff_eq] at h
  rcases h with ((rfl | rfl) | rfl) | rfl <;> rfl

/-- Helper: a non-whitespace member of a list survives `dropWhile`. -/
theorem mem_dropWhile_of_not_ws {x : Char} {l : List Char} (hx : x ∈ l)
    (hnx : isPySpace x = false) : x ∈ l.dropWhile isPySpace := by
  rcases (List.mem_append.mp
    (by rw [List.takeWhile_append_dropWhile (p := isPySpace) (l := l)]; exact hx)) with h | h
  · have := List.mem_takeWhile_imp h
    rw [hnx] at this
    cases this
  · exact h

/-- Helper: membership in the right strip comes from membership in the
list. -/
theorem mem_of_mem_rstripWs {x : Char} {l : List Char} (h : x ∈ rstripWs l) :
    x ∈ l := by
  unfold rstripWs at h
  rw [List.mem_reverse] at h
  have := (List.dropWhile_sublist (l := l.reverse) (p := isPySpace)).subset h
  exact List.mem_reverse.mp this

/-- Helper: membership in the full strip comes from membership in the
list. -/
theorem mem_of_mem_pyStrip {x : Char} {l : List Char} (h : x ∈ pyStrip l) :
    x ∈ l := by
  have := mem_of_mem_rstripWs h
  exact (List.dropWhile_sublist (l := l) (p := isPySpace)).subset this

/-- Helper: the right strip of an all-whitespace list is empty. -/
theorem rstripWs_eq_nil_of_all_ws {l : List Char} (h : ∀ c ∈ l, isPySpace c) :
    rstripWs l = [] := by
  unfold rstripWs
  rw [List.dropWhile_eq_nil_iff.mpr (fun x hx => h x (List.mem_reverse.mp hx))]
  rfl

/-- Helper: a list holding a non-whitespace character has a nonempty right
strip. -/
theorem rstripWs_ne_nil {x : Char} {l : List Char} (hx : x ∈ l)
    (hnx : isPySpace x = false) : rstripWs l ≠ [] := by
  intro hnil
  unfold rstripWs at hnil
  have h1 : l.reverse.dropWhile isPySpace = [] := by
    have := congrArg List.reverse hnil
    simpa using this
  have := List.dropWhile_eq_nil_iff.mp h1 x (List.mem_reverse.mpr hx)
  rw [hnx] at this
  cases this

/-- Helper: stripping from the right distributes over an append whose
right part holds a non-whitespace character. -/
theorem rstripWs_append_right {a b : List Char}
    (h : ∃ x ∈ b, isPySpace x = false) :
    rstripWs (a ++ b) = a ++ rstripWs b := by
  obtain ⟨x, hx, hnx⟩ := h
  have hne : (b.reverse.dropWhile isPySpace).isEmpty = false := by
    rw [List.isEmpty_eq_false_iff_exists_mem]
    exact ⟨x, mem_dropWhile_of_not_ws (List.mem_reverse.mpr hx) hnx⟩
  unfold rstripWs
  rw [List.reverse_append, List.dropWhile_append, hne]
  simp

/-- Helper: stripping from the right passes over a non-whitespace head. -/
theorem rstripWs_cons_of_not_ws {c : Char} {cs : List Char}
    (hc : isPySpace c = false) : rstripWs (c :: cs) = c :: rstripWs cs := by
  by_cases hcs : ∀ x ∈ cs, isPySpace x
  · rw [rstripWs_eq_nil_of_all_ws hcs]
    unfold rstripWs
    rw [List.reverse_cons, List.dropWhile_append,
      List.dropWhile_eq_nil_iff.mpr (fun x hx => hcs x (List.mem_reverse.mp hx))]
    simp [hc]
  · push_neg at hcs
    obtain ⟨x, hx, hnx⟩ := hcs
    have := rstripWs_append_right (a := [c]) (b := cs)
      ⟨x, hx, Bool.eq_false_iff.mpr hnx⟩
    simpa using this

/-- Helper: stripping from the right passes over a head when some later
character is not whitespace. -/
theorem rstripWs_cons_of_exists {c : Char} {cs : List Char}
    (h : ∃ x ∈ cs, isPySpace x = false) :
    rstripWs (c :: cs) = c :: rstripWs cs := by
  have := rstripWs_append_right (a := [c]) (b := cs) h
  simpa using this

/-- Helper: a whitespace-prefixed string has the same brace-extraction
result as the string itself. -/
theorem braceSlice_ws_drop {w l : List Char} (hw : ∀ c ∈ w, isPySpace c) :
    braceSlice (w ++ l) = braceSlice l := by
  unfold braceSlice
  rw [List.dropWhile_append_of_pos]
  intro a ha
  cases hab : a == lbrace with
  | false => simp
  | true =>
    have : a = lbrace := eq_of_beq hab
    subst this
    have := hw _ ha
    simp [isPySpace, lbrace] at this

/-- Helper: `json.loads` only sees its input through the leading
whitespace skip. -/
theorem jsonLoads_eq_of_skipWs_eq {a b : List Char}
    (h : jsonSkipWs a = jsonSkipWs b) : jsonLoads a = jsonLoads b := by
  unfold jsonLoads
  rw [h]

/-- Helper: the fence-open substitution does not depend on the fuel, as
long as the fuel covers the input length. -/
theorem subJsonFenceFuel_congr :
    ∀ (f g : Nat) (l : List Char), l.length ≤ f → l.length ≤ g →
      subJsonFenceFuel f l = subJsonFenceFuel g l := by
  intro f
  induction f with
  | zero =>
    intro g l hf _
    have : l = [] := List.eq_nil_of_length_eq_zero (Nat.le_zero.mp hf)
    subst this
    cases g <;> rfl
  | succ f ih =>
    intro g l hf hg
    cases l with
    | nil => cases g <;> rfl
    | cons c cs =>
      cases g with
      | zero => simp at hg
      | succ g =>
        simp only [List.length_cons] at hf hg
        cases hp : tickJsonLit.isPrefixOf (c :: cs) with
        | true =>
          have h7 : 7 ≤ (c :: cs).length := by
            have := List.IsPrefix.length_le ( List.isPrefixOf_iff_prefix.mp hp)
            simpa [tickJsonLit] using this
          simp only [subJsonFenceFuel, hp, if_true]
          apply ih
          · have h1 := (List.dropWhile_sublist (l := (c :: cs).drop 7)
              (p := isPySpace)).length_le
            have h2 : ((c :: cs).drop 7).length = (c :: cs).length - 7 :=
              List.length_drop 7 (c :: cs)
            simp only [List.length_cons] at h1 h2 ⊢
            omega
          · have h1 := (List.dropWhile_sublist (l := (c :: cs).drop 7)
              (p := isPySpace)).length_le
            have h2 : ((c :: cs).drop 7).length = (c :: cs).length - 7 :=
              List.length_drop 7 (c :: cs)
            simp only [List.length_cons] at h1 h2 ⊢
            omega
        | false =>
          simp only [subJsonFenceFuel, hp, Bool.false_eq_true, if_false]
          rw [ih g cs (by omega) (by omega)]

/-- Helper: the fence-close substitution does not depend on the fuel, as
long as the fuel covers the input length. -/
theorem subCloseFenceFuel_congr :
    ∀ (f g : Nat) (l : List Char), l.length ≤ f → l.length ≤ g →
      subCloseFenceFuel f l = subCloseFenceFuel g l := by
  intro f
  induction f with
  | zero =>
    intro g l hf _
    have : l = [] := List.eq_nil_of_length_eq_zero (Nat.le_zero.mp hf)
    subst this
    cases g <;> rfl
  | succ f ih =>
    intro g l hf hg
    cases l with
    | nil => cases g <;> rfl
    | cons c cs =>
      cases g with
      | zero => simp at hg
      | succ g =>
        simp only [List.length_cons] at hf hg
        have hrlen : ((c :: cs).dropWhile isPySpace).length ≤ cs.length + 1 := by
          have := (List.dropWhile_sublist (l := c :: cs) (p := isPySpace)).length_le
          simpa using this
        cases hp : tick3Lit.isPrefixOf ((c :: cs).dropWhile isPySpace) with
        | true =>
          have h3 : 3 ≤ ((c :: cs).dropWhile isPySpace).length := by
            have := List.IsPrefix.length_le ( List.isPrefixOf_iff_prefix.mp hp)
            simpa [tick3Lit] using this
          simp only [subCloseFenceFuel, hp, if_true]
          apply ih
          · rw [List.length_drop]
            omega
          · rw [List.length_drop]
            omega
        | false =>
          cases hc : isPySpace c with
          | true =>
            have hshort : ((c :: cs).dropWhile isPySpace).length ≤ cs.length := by
              rw [List.dropWhile_cons_of_pos hc]
              exact (List.dropWhile_sublist (l := cs) (p := isPySpace)).length_le
            simp only [subCloseFenceFuel, hp, Bool.false_eq_true, if_false, hc,
              if_true]
            rw [ih g _ (by omega) (by omega)]
          | false =>
            simp only [subCloseFenceFuel, hp, Bool.false_eq_true, if_false, hc]
            rw [ih g cs (by omega) (by omega)]

/-- Helper: the fence-open substitution walks over a backtick-free prefix
untouched. -/
theorem subJsonFenceFuel_append :
    ∀ (f : Nat) (l t : List Char), (l ++ t).length ≤ f →
      (∀ c ∈ l, ¬ c = '`') →
      subJsonFenceFuel f (l ++ t) = l ++ subJsonFenceFuel (t.length + 1) t := by
  intro f
  induction f with
  | zero =>
    intro l t h _
    have : l ++ t = [] := List.eq_nil_of_length_eq_zero (Nat.le_zero.mp h)
    rcases List.append_eq_nil.mp this with ⟨rfl, rfl⟩
    rfl
  | succ f ih =>
    intro l t h hl
    cases l with
    | nil =>
      simp only [List.nil_append]
      exact subJsonFenceFuel_congr (f + 1) (t.length + 1) t (by simpa using h)
        (by omega)
    | cons c cs =>
      have hp := @tickJsonNoMatch c (cs ++ t) (hl c (by simp))
      simp only [List.cons_append, subJsonFenceFuel, List.append_eq, hp,
        Bool.false_eq_true, if_false]
      rw [ih cs t (by simp at h ⊢; omega) (fun x hx => hl x (by simp [hx]))]

/-- Helper: the fence-open substitution leaves a backtick-free prefix in
place. -/
theorem subJsonFence_append {l t : List Char} (hl : ∀ c ∈ l, ¬ c = '`') :
    subJsonFence (l ++ t) = l ++ subJsonFence t := by
  unfold subJsonFence
  exact subJsonFenceFuel_append ((l ++ t).length + 1) l t (by omega) hl

/-- Helper: the fence-open substitution is the identity on backtick-free
input. -/
theorem subJsonFence_no_tick_id {l : List Char} (hl : ∀ c ∈ l, ¬ c = '`') :
    subJsonFence l = l := by
  have h := subJsonFence_append (l := l) (t := []) hl
  simpa [subJsonFence, subJsonFenceFuel] using h

/-- Helper: one non-matching step of the fence-open substitution. -/
theorem subJsonFence_cons {c : Char} {cs : List Char}
    (h : tickJsonLit.isPrefixOf (c :: cs) = false) :
    subJsonFence (c :: cs) = c :: subJsonFence cs := by
  unfold subJsonFence
  simp only [List.length_cons, subJsonFenceFuel, h, Bool.false_eq_true, if_false]

/-- Helper: the fence-close substitution is the identity on backtick-free
input (with explicit fuel). -/
theorem subCloseFenceFuel_no_tick_id :
    ∀ (f : Nat) (l : List Char), l.length ≤ f → (∀ c ∈ l, ¬ c = '`') →
      subCloseFenceFuel f l = l := by
  intro f
  induction f with
  | zero =>
    intro l hf _
    have : l = [] := List.eq_nil_of_length_eq_zero (Nat.le_zero.mp hf)
    subst this
    rfl
  | succ f ih =>
    intro l hf hl
    cases l with
    | nil => rfl
    | cons c cs =>
      have hpr : tick3Lit.isPrefixOf ((c :: cs).dropWhile isPySpace) = false := by
        cases hh : tick3Lit.isPrefixOf ((c :: cs).dropWhile isPySpace) with
        | false => rfl
        | true =>
          obtain ⟨rs, hr⟩ := tick3MatchHead hh
          have hmem : '`' ∈ c :: cs :=
            (List.dropWhile_sublist (l := c :: cs) (p := isPySpace)).subset
              (by rw [hr]; exact List.mem_cons_self _ _)
          exact absurd rfl (hl '`' hmem)
      cases hc : isPySpace c with
      | true =>
        have hshort : ((c :: cs).dropWhile isPySpace).length ≤ cs.length := by
          rw [List.dropWhile_cons_of_pos hc]
          exact (List.dropWhile_sublist (l := cs) (p := isPySpace)).length_le
        simp only [subCloseFenceFuel, hpr, Bool.false_eq_true, if_false, hc,
          if_true]
        rw [ih _ (by simp at hf; omega)
          (fun x hx => hl x
            ((List.dropWhile_sublist (l := c :: cs) (p := isPySpace)).subset hx))]
        exact List.takeWhile_append_dropWhile isPySpace (c :: cs)
      | false =>
        simp only [subCloseFenceFuel, hpr, Bool.false_eq_true, if_false, hc]
        rw [ih cs (by simp at hf; omega) (fun x hx => hl x (by simp [hx]))]

/-- Helper: the fence-close substitution is the identity on backtick-free
input. -/
theorem subCloseFence_no_tick_id {l : List Char} (hl : ∀ c ∈ l, ¬ c = '`') :
    subCloseFence l = l :=
  subCloseFenceFuel_no_tick_id (l.length + 1) l (by omega) hl

/-- Helper: on a backtick-free string followed by a newline and a closing
fence, the fence-close substitution deletes exactly the trailing
whitespace run and the fence — leaving the right-stripped string. -/
theorem subCloseFenceFuel_close :
    ∀ (f : Nat) (l : List Char), l.length + 4 ≤ f → (∀ c ∈ l, ¬ c = '`') →
      subCloseFenceFuel f (l ++ '\n' :: tick3Lit) = rstripWs l := by
  intro f
  induction f with
  | zero => intro l h _; omega
  | succ f ih =>
    intro l h hl
    cases l with
    | nil =>
      show subCloseFenceFuel (f + 1) ('\n' :: tick3Lit) = rstripWs []
      have hr : ('\n' :: tick3Lit).dropWhile isPySpace = tick3Lit := by decide
      simp only [subCloseFenceFuel, hr,
        show tick3Lit.isPrefixOf tick3Lit = true from by decide, if_true,
        show tick3Lit.drop 3 = [] from rfl]
      cases f <;> rfl
    | cons c cs =>
      cases hc : isPySpace c with
      | true =>
        by_cases hall : ∀ x ∈ c :: cs, isPySpace x
        · have hdropcc : (c :: cs).dropWhile isPySpace = [] :=
            List.dropWhile_eq_nil_iff.mpr hall
          have hdrop : (c :: (cs ++ '\n' :: tick3Lit)).dropWhile isPySpace
              = tick3Lit := by
            rw [← List.cons_append, List.dropWhile_append, hdropcc]
            decide
          simp only [List.cons_append, subCloseFenceFuel, List.append_eq, hdrop,
            show tick3Lit.isPrefixOf tick3Lit = true from by decide, if_true,
            show tick3Lit.drop 3 = [] from rfl]
          rw [rstripWs_eq_nil_of_all_ws hall]
          cases f <;> rfl
        · have hne : ((c :: cs).dropWhile isPySpace).isEmpty = false := by
            cases hE : ((c :: cs).dropWhile isPySpace).isEmpty with
            | false => rfl
            | true =>
              exact absurd
                (fun x hx => List.dropWhile_eq_nil_iff.mp
                  (List.isEmpty_iff.mp hE) x hx) hall
          have hdrop : (c :: (cs ++ '\n' :: tick3Lit)).dropWhile isPySpace
              = (c :: cs).dropWhile isPySpace ++ '\n' :: tick3Lit := by
            rw [← List.cons_append, List.dropWhile_append, hne]
            simp
          obtain ⟨d, ds, hD⟩ : ∃ d ds, (c :: cs).dropWhile isPySpace = d :: ds := by
            cases hE : (c :: cs).dropWhile isPySpace with
            | nil => rw [hE] at hne; simp at hne
            | cons d ds => exact ⟨d, ds, rfl⟩
          have hdmem : d ∈ c :: cs :=
            (List.dropWhile_sublist (l := c :: cs) (p := isPySpace)).subset
              (by rw [hD]; exact List.mem_cons_self _ _)
          have hpr : tick3Lit.isPrefixOf
              ((c :: cs).dropWhile isPySpace ++ '\n' :: tick3Lit) = false := by
            rw [hD, List.cons_append]
            exact tick3NoMatch (hl d hdmem)
          have htake : (c :: (cs ++ '\n' :: tick3Lit)).takeWhile isPySpace
              = (c :: cs).takeWhile isPySpace := by
            rw [← List.cons_append, List.takeWhile_append]
            have hlen := congrArg List.length
              (List.takeWhile_append_dropWhile isPySpace (c :: cs))
            rw [List.length_append] at hlen
            have hpos : 0 < ((c :: cs).dropWhile isPySpace).length := by
              rw [hD]; simp
            rw [if_neg (by omega)]
          have hshort : ((c :: cs).dropWhile isPySpace).length ≤ cs.length := by
            rw [List.dropWhile_cons_of_pos hc]
            exact (List.dropWhile_sublist (l := cs) (p := isPySpace)).length_le
          have hrec := ih ((c :: cs).dropWhile isPySpace)
            (by simp only [List.length_cons] at h; omega)
            (fun x hx => hl x
              ((List.dropWhile_sublist (l := c :: cs) (p := isPySpace)).subset hx))
          simp only [List.cons_append, subCloseFenceFuel, List.append_eq, hdrop,
            hpr, Bool.false_eq_true, if_false, hc, if_true, htake, hrec]
          obtain ⟨x, hx, hnx⟩ : ∃ x ∈ c :: cs, isPySpace x = false := by
            by_contra hcon
            push_neg at hcon
            exact hall fun y hy => by
              have := hcon y hy
              cases hyy : isPySpace y with
              | true => rfl
              | false => exact absurd hyy this
          conv_rhs =>
            rw [← List.takeWhile_append_dropWhile (p := isPySpace) (l := c :: cs)]
          rw [rstripWs_append_right ⟨x, mem_dropWhile_of_not_ws hx hnx, hnx⟩]
      | false =>
        have hdrop : (c :: (cs ++ '\n' :: tick3Lit)).dropWhile isPySpace
            = c :: (cs ++ '\n' :: tick3Lit) :=
          List.dropWhile_cons_of_neg (by simp [hc])
        have hpr : tick3Lit.isPrefixOf (c :: (cs ++ '\n' :: tick3Lit)) = false :=
          tick3NoMatch (hl c (List.mem_cons_self _ _))
        have hrec := ih cs (by simp only [List.length_cons] at h; omega)
          (fun x hx => hl x (by simp [hx]))
        simp only [List.cons_append, subCloseFenceFuel, List.append_eq, hdrop,
          hpr, Bool.false_eq_true, if_false, hc, hrec]
        rw [rstripWs_cons_of_not_ws hc]

/-- Helper: the fence-open substitution consumes a leading open-fence
token together with the whitespace after it. -/
theorem subJsonFence_tick_head (l : List Char) :
    subJsonFence (tickJsonLit ++ l) = subJsonFence (l.dropWhile isPySpace) := by
  have hp : tickJsonLit.isPrefixOf ('`' :: '`' :: '`' :: 'j' :: 's' :: 'o' :: 'n' :: l)
      = true := by
    simp [tickJsonLit, List.isPrefixOf_cons₂]
  show subJsonFenceFuel ((tickJsonLit ++ l).length + 1) (tickJsonLit ++ l)
      = subJsonFence (l.dropWhile isPySpace)
  rw [show tickJsonLit ++ l = '`' :: '`' :: '`' :: 'j' :: 's' :: 'o' :: 'n' :: l
    from rfl]
  simp only [subJsonFenceFuel, hp, if_true,
    show ∀ x : List Char, List.drop 7 ('`' :: '`' :: '`' :: 'j' :: 's' :: 'o' :: 'n' :: x) = x
      from fun _ => rfl]
  apply subJsonFenceFuel_congr
  · have := (List.dropWhile_sublist (l := l) (p := isPySpace)).length_le
    simp only [List.length_cons]
    omega
  · omega

/-- Helper: the fence-close substitution consumes a leading close-fence
token. -/
theorem subCloseFence_tick3_head (l : List Char) :
    subCloseFence (tick3Lit ++ l) = subCloseFence l := by
  have hd : ('`' :: '`' :: '`' :: l).dropWhile isPySpace = '`' :: '`' :: '`' :: l :=
    List.dropWhile_cons_of_neg (by decide)
  have hp : tick3Lit.isPrefixOf ('`' :: '`' :: '`' :: l) = true := by
    simp [tick3Lit, List.isPrefixOf_cons₂]
  show subCloseFenceFuel ((tick3Lit ++ l).length + 1) (tick3Lit ++ l) = subCloseFence l
  rw [show tick3Lit ++ l = '`' :: '`' :: '`' :: l from rfl]
  simp only [subCloseFenceFuel, hd, hp, if_true,
    show ∀ x : List Char, List.drop 3 ('`' :: '`' :: '`' :: x) = x from fun _ => rfl]
  apply subCloseFenceFuel_congr
  · simp only [List.length_cons]; omega
  · omega

/-- Helper: in the local variant, wrapping a backtick-free response in a
json-tagged markdown fence does not change the parse result. -/
theorem ollamaParse_fenceTag_eq (s : List Char) (hs : ∀ c ∈ s, ¬ c = '`') :
    ollamaParseContent (fenceTag s) = ollamaParseContent s := by
  have hstrip1 : lstripWs (fenceTag s) = fenceTag s := rfl
  have hstrip2 : rstripWs (fenceTag s) = fenceTag s := by
    show rstripWs (("```json\n".toList ++ s) ++ "\n```".toList) = fenceTag s
    rw [rstripWs_append_right ⟨'`', by decide, by decide⟩,
      show rstripWs "\n```".toList = "\n```".toList from by decide]
    rfl
  have hps : pyStrip (fenceTag s) = fenceTag s := by
    show rstripWs (lstripWs (fenceTag s)) = fenceTag s
    rw [hstrip1, hstrip2]
  have hne : (fenceTag s).isEmpty = false := rfl
  have hhead : subJsonFence (fenceTag s)
      = subJsonFence ((s ++ '\n' :: tick3Lit).dropWhile isPySpace) := by
    rw [show fenceTag s = tickJsonLit ++ ('\n' :: (s ++ '\n' :: tick3Lit)) from rfl,
      subJsonFence_tick_head, List.dropWhile_cons_of_pos (by decide)]
  by_cases hws : ∀ c ∈ s, isPySpace c
  · have hd : (s ++ '\n' :: tick3Lit).dropWhile isPySpace = tick3Lit := by
      rw [List.dropWhile_append, List.dropWhile_eq_nil_iff.mpr hws]
      decide
    have hclean : subCloseFence (subJsonFence (fenceTag s)) = [] := by
      rw [hhead, hd, show subJsonFence tick3Lit = tick3Lit from by decide]
      decide
    have hps0 : pyStrip s = [] := pyStrip_eq_nil_of_all_ws hws
    simp only [ollamaParseContent, hps, hne, Bool.false_eq_true, if_false,
      hclean, hps0, List.isEmpty_nil, if_true]
    rfl
  · push_neg at hws
    obtain ⟨x, hx, hnx⟩ := hws
    have hnxf : isPySpace x = false := by
      cases hxx : isPySpace x with
      | false => rfl
      | true => exact absurd hxx hnx
    have hdne : (s.dropWhile isPySpace).isEmpty = false := by
      cases hE : (s.dropWhile isPySpace).isEmpty with
      | false => rfl
      | true =>
        have := List.dropWhile_eq_nil_iff.mp (List.isEmpty_iff.mp hE) x hx
        rw [hnxf] at this
        cases this
    have hd : (s ++ '\n' :: tick3Lit).dropWhile isPySpace
        = s.dropWhile isPySpace ++ '\n' :: tick3Lit := by
      rw [List.dropWhile_append, hdne]
      simp
    have hsub1 : subJsonFence (s.dropWhile isPySpace ++ '\n' :: tick3Lit)
        = s.dropWhile isPySpace ++ '\n' :: tick3Lit := by
      rw [subJsonFence_append
        (fun c hc => hs c ((List.dropWhile_sublist (l := s) (p := isPySpace)).subset hc))]
      rw [show subJsonFence ('\n' :: tick3Lit) = '\n' :: tick3Lit from by decide]
    have hclean : subCloseFence (subJsonFence (fenceTag s)) = pyStrip s := by
      rw [hhead, hd, hsub1]
      exact subCloseFenceFuel_close _ _
        (by simp [List.length_append, show tick3Lit.length = 3 from rfl])
        (fun c hc => hs c ((List.dropWhile_sublist (l := s) (p := isPySpace)).subset hc))
    have hPne : (pyStrip s).isEmpty = false := by
      cases hE : (pyStrip s).isEmpty with
      | false => rfl
      | true =>
        exact absurd (List.isEmpty_iff.mp hE)
          (rstripWs_ne_nil (mem_dropWhile_of_not_ws hx hnxf) hnxf)
    have hsub1u : subJsonFence (pyStrip s) = pyStrip s :=
      subJsonFence_no_tick_id (fun c hc => hs c (mem_of_mem_pyStrip hc))
    have hsub2u : subCloseFence (pyStrip s) = pyStrip s :=
      subCloseFence_no_tick_id (fun c hc => hs c (mem_of_mem_pyStrip hc))
    simp only [ollamaParseContent, hps, hne, Bool.false_eq_true, if_false,
      hclean, hPne, hsub1u, hsub2u]

/-- Helper: in the local variant, wrapping a backtick-free response whose
whitespace is JSON whitespace in an untagged markdown fence does not
change the parse result. -/
theorem ollamaParse_fenceBare_eq (s : List Char) (hs : ∀ c ∈ s, ¬ c = '`')
    (hjs : ∀ c ∈ s, isPySpace c = true → isJsonWs c = true) :
    ollamaParseContent (fenceBare s) = ollamaParseContent s := by
  have hstrip1 : lstripWs (fenceBare s) = fenceBare s := rfl
  have hstrip2 : rstripWs (fenceBare s) = fenceBare s := by
    show rstripWs (("```\n".toList ++ s) ++ "\n```".toList) = fenceBare s
    rw [rstripWs_append_right ⟨'`', by decide, by decide⟩,
      show rstripWs "\n```".toList = "\n```".toList from by decide]
    rfl
  have hps : pyStrip (fenceBare s) = fenceBare s := by
    show rstripWs (lstripWs (fenceBare s)) = fenceBare s
    rw [hstrip1, hstrip2]
  have hne : (fenceBare s).isEmpty = false := rfl
  have hsub1 : subJsonFence (fenceBare s) = fenceBare s := by
    rw [show fenceBare s = '`' :: '`' :: '`' :: '\n' :: (s ++ '\n' :: tick3Lit)
      from rfl]
    rw [subJsonFence_cons (by simp [tickJsonLit, List.isPrefixOf_cons₂]),
      subJsonFence_cons (by simp [tickJsonLit, List.isPrefixOf_cons₂]),
      subJsonFence_cons (by simp [tickJsonLit, List.isPrefixOf_cons₂]),
      subJsonFence_cons (by simp [tickJsonLit, List.isPrefixOf_cons₂]),
      subJsonFence_append hs,
      show subJsonFence ('\n' :: tick3Lit) = '\n' :: tick3Lit from by decide]
  have hclean : subCloseFence (subJsonFence (fenceBare s)) = rstripWs ('\n' :: s) := by
    rw [hsub1, show fenceBare s = tick3Lit ++ ('\n' :: (s ++ '\n' :: tick3Lit))
      from rfl, subCloseFence_tick3_head,
      show ('\n' :: (s ++ '\n' :: tick3Lit)) = ('\n' :: s) ++ '\n' :: tick3Lit
      from rfl]
    exact subCloseFenceFuel_close _ _
      (by simp [List.length_append, show tick3Lit.length = 3 from rfl])
      (fun c hc => by
        rcases List.mem_cons.mp hc with rfl | hc2
        · intro hcon; cases hcon
        · exact hs c hc2)
  by_cases hws : ∀ c ∈ s, isPySpace c
  · have hnil : rstripWs ('\n' :: s) = [] :=
      rstripWs_eq_nil_of_all_ws (fun c hc => by
        rcases List.mem_cons.mp hc with rfl | hc2
        · rfl
        · exact hws c hc2)
    have hps0 : pyStrip s = [] := pyStrip_eq_nil_of_all_ws hws
    simp only [ollamaParseContent, hps, hne, Bool.false_eq_true, if_false,
      hclean, hnil, hps0, List.isEmpty_nil, if_true]
    rfl
  · push_neg at hws
    obtain ⟨x, hx, hnx⟩ := hws
    have hnxf : isPySpace x = false := by
      cases hxx : isPySpace x with
      | false => rfl
      | true => exact absurd hxx hnx
    have hcons : rstripWs ('\n' :: s) = '\n' :: rstripWs s :=
      rstripWs_cons_of_exists ⟨x, hx, hnxf⟩
    have hdec : rstripWs s = s.takeWhile isPySpace ++ pyStrip s := by
      conv_lhs => rw [← List.takeWhile_append_dropWhile (p := isPySpace) (l := s)]
      rw [rstripWs_append_right ⟨x, mem_dropWhile_of_not_ws hx hnxf, hnxf⟩]
      rfl
    have htakews : ∀ c ∈ s.takeWhile isPySpace, isJsonWs c = true := by
      intro c hc
      exact hjs c (( List.takeWhile_prefix (p := isPySpace)).subset hc)
        (List.mem_takeWhile_imp hc)
    have hJ : jsonLoads ('\n' :: rstripWs s) = jsonLoads (pyStrip s) := by
      apply jsonLoads_eq_of_skipWs_eq
      show List.dropWhile isJsonWs ('\n' :: rstripWs s) = jsonSkipWs (pyStrip s)
      rw [List.dropWhile_cons_of_pos (by decide), hdec,
        List.dropWhile_append_of_pos htakews]
      rfl
    have hBr : braceSlice ('\n' :: rstripWs s) = braceSlice (pyStrip s) := by
      rw [hdec, show ('\n' :: (s.takeWhile isPySpace ++ pyStrip s))
          = ('\n' :: s.takeWhile isPySpace) ++ pyStrip s from rfl]
      exact braceSlice_ws_drop (fun c hc => by
        rcases List.mem_cons.mp hc with rfl | hc2
        · rfl
        · exact List.mem_takeWhile_imp hc2)
    have hPne : (pyStrip s).isEmpty = false := by
      cases hE : (pyStrip s).isEmpty with
      | false => rfl
      | true =>
        exact absurd (List.isEmpty_iff.mp hE)
          (rstripWs_ne_nil (mem_dropWhile_of_not_ws hx hnxf) hnxf)
    have hsub1u : subJsonFence (pyStrip s) = pyStrip s :=
      subJsonFence_no_tick_id (fun c hc => hs c (mem_of_mem_pyStrip hc))
    have hsub2u : subCloseFence (pyStrip s) = pyStrip s :=
      subCloseFence_no_tick_id (fun c hc => hs c (mem_of_mem_pyStrip hc))
    simp only [ollamaParseContent, hps, hne, Bool.false_eq_true, if_false,
      hclean, hcons, hJ, hBr, hPne, hsub1u, hsub2u]

/-- C3, counterexample.  The hosted variant performs no fence handling, so
a fenced response does not recover the same structured result as its
unwrapped equivalent there: for the scenario-A pair the wrapped input
parses to the empty mapping and the unwrapped one to the one-key
mapping. -/
theorem c3_counterexample :
    hostedParseContent scenarioA = Json.obj [] ∧
    hostedParseContent scenarioAContent =
      Json.obj [("PaperTitle".toList, Json.str "X".toList)] ∧
    hostedParseContent scenarioA ≠ hostedParseContent scenarioAContent := by
  refine ⟨by rfl, by rfl, ?_⟩
  intro h
  have h2 := congrArg topKeyCount h
  rw [show topKeyCount (hostedParseContent scenarioA) = 0 from rfl,
    show topKeyCount (hostedParseContent scenarioAContent) = 1 from rfl] at h2
  exact absurd h2 (by decide)

/-- C3, amended.  In the local variant, a raw response wrapped in a
markdown fence — json-tagged, or untagged provided the content's
whitespace lies in the JSON whitespace class — parses to exactly the same
structured result as the unwrapped equivalent whenever the content
contains no backtick of its own; the hosted variant performs no fence
handling, so the property fails there. -/
theorem c3_amended (s : List Char) (hTick : ∀ c ∈ s, ¬ c = '`') :
    ollamaParseContent (fenceTag s) = ollamaParseContent s ∧
    ((∀ c ∈ s, isPySpace c = true → isJsonWs c = true) →
      ollamaParseContent (fenceBare s) = ollamaParseContent s) :=
  ⟨ollamaParse_fenceTag_eq s hTick,
    fun hjs => ollamaParse_fenceBare_eq s hTick hjs⟩

/-- C3, witness: the amended theorem applied to the scenario-A content. -/
theorem c3_witness :
    ollamaParseContent (fenceTag scenarioAContent)
      = ollamaParseContent scenarioAContent ∧
    ollamaParseContent (fenceBare scenarioAContent)
      = ollamaParseContent scenarioAContent :=
  ⟨(c3_amended scenarioAContent (by decide)).1,
    (c3_amended scenarioAContent (by decide)).2 (by decide)⟩

end AgenticAI
